import Mathlib

/-!
Verification of the py2flows CFG builder.

This file gives a shallow embedding of the two CFG builders of the
repository:

* `FlowsPy` embeds `src/py2flows/cfg/flows.py` (class `CFGVisitor` and its
  helpers), the package implementation;
* `CfgPy` embeds the parts of `src/cfg.py` that the claims refer to.

Python ASTs are modelled by the inductive type `PyAst`; the mutable
visitor (current block, the loop stacks, the comprehension stacks, the
global block-id counter) is modelled by an explicit state record that is
threaded through a fueled interpreter.  Machine-level details that cannot
affect the claims (source pretty-printing, logging, graphviz rendering)
are dropped.  Python dictionaries are association lists with
overwrite-on-insert, Python sets are duplicate-free lists, Python lists
are plain lists; `dict.pop(k, None)` is an erase, `set.remove` on a
missing element is a key error.
-/

set_option maxHeartbeats 1000000

/-- Python AST nodes, one constructor per node kind consumed by the
builders (statement and expression kinds live in one type, as in Python's
untyped `ast` module).  `comprehension` is the generator clause of a
comprehension; a `tryS` handler is a pair of the optional exception-type
expression and the handler body. -/
inductive PyAst : Type where
  | module (body : List PyAst)
  | importS (nm : String)
  | importFrom (mod : String) (nm : String)
  | functionDef (fname : String) (argNames : List String)
      (defaults : List PyAst) (body : List PyAst)
  | classDef (cname : String) (body : List PyAst)
  | assign (targets : List PyAst) (value : PyAst)
  | augAssign (target : PyAst) (op : String) (value : PyAst)
  | ifS (test : PyAst) (body : List PyAst) (orelse : List PyAst)
  | whileS (test : PyAst) (body : List PyAst) (orelse : List PyAst)
  | forS (target : PyAst) (iter : PyAst) (body : List PyAst) (orelse : List PyAst)
  | breakS
  | continueS
  | returnS (value : Option PyAst)
  | passS
  | assertS (test : PyAst) (msg : Option PyAst)
  | raiseS (exc : Option PyAst)
  | tryS (body : List PyAst) (handlers : List (Option PyAst × List PyAst))
      (orelse : List PyAst) (finalbody : List PyAst)
  | exprS (value : PyAst)
  | name (id : String)
  | num (n : Int)
  | strE (s : String)
  | call (func : PyAst) (args : List PyAst) (keywords : List PyAst)
  | attribute (value : PyAst) (attr : String)
  | subscript (value : PyAst) (index : PyAst)
  | boolOp (isAnd : Bool) (values : List PyAst)
  | binOp (left : PyAst) (op : String) (right : PyAst)
  | compare (left : PyAst) (op : String) (right : PyAst)
  | listE (elts : List PyAst)
  | dictE (keys : List PyAst) (values : List PyAst)
  | yieldE (value : Option PyAst)
  | listComp (elt : PyAst) (gens : List PyAst)
  | setComp (elt : PyAst) (gens : List PyAst)
  | dictComp (key : PyAst) (value : PyAst) (gens : List PyAst)
  | genExp (elt : PyAst) (gens : List PyAst)
  | lambdaE (argNames : List String) (body : PyAst)
  | ifExpE (test : PyAst) (body : PyAst) (orelse : PyAst)
  | comprehension (target : PyAst) (iter : PyAst) (ifs : List PyAst)

/-- A basic block (`BasicBlock` in both sources): id, statement list,
auxiliary call-display strings, predecessor and successor id lists.
Lists may transiently hold duplicates, as in the source. -/
structure Blk where
  bid : Nat
  stmts : List PyAst
  calls : List String
  prev : List Nat
  nxt : List Nat

/-- A fresh, empty basic block with id `bid`. -/
def Blk.empty (bid : Nat) : Blk := ⟨bid, [], [], [], []⟩

/-- The CFG record of `flows.py` (`class CFG`): name, start block id, the
`final_blocks` list (block identity is the id), the nested function and
class CFG maps, the block map, the guarded edge map and the `flows` set.
The graphviz handle is omitted. -/
inductive CFGd : Type where
  | mk (nm : String) (start : Nat) (finalBlocks : List Nat)
      (funcCfgs : List (String × (List (String × Option PyAst)) × CFGd))
      (classCfgs : List (String × CFGd))
      (blocks : List (Nat × Blk))
      (edges : List ((Nat × Nat) × Option PyAst))
      (flows : List (Nat × Nat))

def CFGd.nm : CFGd → String
  | .mk v _ _ _ _ _ _ _ => v

def CFGd.start : CFGd → Nat
  | .mk _ v _ _ _ _ _ _ => v

def CFGd.finalBlocks : CFGd → List Nat
  | .mk _ _ v _ _ _ _ _ => v

def CFGd.funcCfgs : CFGd → List (String × (List (String × Option PyAst)) × CFGd)
  | .mk _ _ _ v _ _ _ _ => v

def CFGd.classCfgs : CFGd → List (String × CFGd)
  | .mk _ _ _ _ v _ _ _ => v

def CFGd.blocks : CFGd → List (Nat × Blk)
  | .mk _ _ _ _ _ v _ _ => v

def CFGd.edges : CFGd → List ((Nat × Nat) × Option PyAst)
  | .mk _ _ _ _ _ _ v _ => v

def CFGd.flows : CFGd → List (Nat × Nat)
  | .mk _ _ _ _ _ _ _ v => v

def CFGd.setStart (c : CFGd) (v : Nat) : CFGd :=
  match c with
  | .mk n _ f fc cc b e fl => .mk n v f fc cc b e fl

def CFGd.setFinalBlocks (c : CFGd) (v : List Nat) : CFGd :=
  match c with
  | .mk n s _ fc cc b e fl => .mk n s v fc cc b e fl

def CFGd.setFuncCfgs (c : CFGd)
    (v : List (String × (List (String × Option PyAst)) × CFGd)) : CFGd :=
  match c with
  | .mk n s f _ cc b e fl => .mk n s f v cc b e fl

def CFGd.setClassCfgs (c : CFGd) (v : List (String × CFGd)) : CFGd :=
  match c with
  | .mk n s f fc _ b e fl => .mk n s f fc v b e fl

def CFGd.setBlocks (c : CFGd) (v : List (Nat × Blk)) : CFGd :=
  match c with
  | .mk n s f fc cc _ e fl => .mk n s f fc cc v e fl

def CFGd.setEdges (c : CFGd) (v : List ((Nat × Nat) × Option PyAst)) : CFGd :=
  match c with
  | .mk n s f fc cc b _ fl => .mk n s f fc cc b v fl

def CFGd.setFlows (c : CFGd) (v : List (Nat × Nat)) : CFGd :=
  match c with
  | .mk n s f fc cc b e _ => .mk n s f fc cc b e v

/-- The empty CFG that `CFG.__init__` produces (start id 0 stands for the
source's `None`, it is overwritten before use). -/
def CFGd.fresh (nm : String) : CFGd := .mk nm 0 [] [] [] [] [] []

/-- Builder errors: the two `assert` failures of `visit_Break` and
`visit_Continue`, the `TypeError` raised by `flows.py`'s `visit_Lambda`
(which calls `add_FuncCFG` without its required argument), `KeyError`
from dict/set lookups, `IndexError` from reading the top of an empty
stack, and a marker for source constructs outside the modelled subset. -/
inductive BuildErr : Type where
  | assertBreak
  | assertContinue
  | lambdaArg
  | keyErr
  | idxErr
  | notModelled

/-- The visitor state of `flows.py`'s `CFGVisitor` plus the process-wide
counters: the CFG under construction, the current-block cursor, the
global `BlockId.counter`, the two fresh-name counters (modelling the
external `randoms` collaborator), the loop/guard stacks (block ids), the
five desugaring stacks, the `ifExp` flag, and the `visited` set shared by
`remove_empty_blocks` invocations. -/
structure St where
  cfg : CFGd
  curr : Nat
  counter : Nat
  varCount : Nat
  genCount : Nat
  loopStack : List Nat
  loopGuardStack : List Nat
  listCompStack : List String
  setCompStack : List String
  dictCompStack : List String
  genExpStack : List String
  lambdaStack : List String
  ifExpFlag : Bool
  visited : List Nat

/-- Result of one interpreter step: a successful state, a raised Python
exception, or fuel exhaustion (the interpreter is fueled; `spin` never
corresponds to a behaviour of the source). -/
inductive Res : Type where
  | ok (s : St)
  | err (e : BuildErr)
  | spin

/-- Sequencing of results: errors and fuel exhaustion propagate. -/
def Res.andThen (r : Res) (f : St → Res) : Res :=
  match r with
  | .ok s => f s
  | .err e => .err e
  | .spin => .spin

/-- Association-list lookup by key (Python `dict.get` / subscript). -/
def alistFind {β : Type} (k : Nat × Nat) (l : List ((Nat × Nat) × β)) : Option β :=
  match l with
  | [] => none
  | (k2, v) :: rest => if k2 = k then some v else alistFind k rest

/-- Remove the entry with key `k`, if present (Python `dict.pop(k, None)`). -/
def alistErase {β : Type} (k : Nat × Nat) (l : List ((Nat × Nat) × β)) :
    List ((Nat × Nat) × β) :=
  match l with
  | [] => []
  | (k2, v) :: rest => if k2 = k then rest else (k2, v) :: alistErase k rest

/-- Association-list insert with overwrite (Python dict assignment). -/
def alistInsert {β : Type} (k : Nat × Nat) (v : β)
    (l : List ((Nat × Nat) × β)) : List ((Nat × Nat) × β) :=
  (k, v) :: alistErase k l

/-- Block-map lookup (`self.cfg.blocks[bid]`, as an option). -/
def blkFind (bid : Nat) (l : List (Nat × Blk)) : Option Blk :=
  match l with
  | [] => none
  | (k, v) :: rest => if k = bid then some v else blkFind bid rest

/-- Block-map insert with overwrite (`self.cfg.blocks[bid] = block`). -/
def blkInsert (bid : Nat) (b : Blk) (l : List (Nat × Blk)) : List (Nat × Blk) :=
  match l with
  | [] => [(bid, b)]
  | (k, v) :: rest => if k = bid then (bid, b) :: rest else (k, v) :: blkInsert bid b rest

/-- Python `set.add`: insert if absent. -/
def setAdd (p : Nat × Nat) (l : List (Nat × Nat)) : List (Nat × Nat) :=
  if p ∈ l then l else p :: l

/-- Remove the first occurrence of `p` (on a duplicate-free list this is
Python `set.remove`; totalised, callers guard membership as the source
does). -/
def setDel (p : Nat × Nat) (l : List (Nat × Nat)) : List (Nat × Nat) :=
  match l with
  | [] => []
  | q :: rest => if q = p then rest else q :: setDel p rest

/-- Remove the first occurrence of `x` from a list of ids
(`list.remove(x)` after an `in` guard, as in `remove_from_prev`). -/
def idDel (x : Nat) (l : List Nat) : List Nat :=
  match l with
  | [] => []
  | y :: rest => if y = x then rest else y :: idDel x rest

/-- String-keyed dict insert with overwrite (for `func_cfgs` / `class_cfgs`). -/
def strInsert {β : Type} (k : String) (v : β) (l : List (String × β)) :
    List (String × β) :=
  match l with
  | [] => [(k, v)]
  | (k2, v2) :: rest => if k2 = k then (k, v) :: rest else (k2, v2) :: strInsert k v rest

/-- Python `self.cfg.edges.get(key)`: `none` stands both for a missing key
and for a stored unconditional edge, exactly as in the source where both
come back as the Python value `None`. -/
def edgeGet (k : Nat × Nat) (l : List ((Nat × Nat) × Option PyAst)) : Option PyAst :=
  match alistFind k l with
  | some v => v
  | none => none

namespace FlowsPy

/-- Constructor test used by `visit_Assign` / `visit_Call`
(`type(arg) == ast.Call`). -/
def isCall : PyAst → Bool
  | .call _ _ _ => true
  | _ => false

/-- Constructor test for `type(arg) not in [ast.Name, ast.Num]`. -/
def isNameOrNum : PyAst → Bool
  | .name _ => true
  | .num _ => true
  | _ => false

/-- Constructor test for `type(node) == ast.IfExp`. -/
def isIfExp : PyAst → Bool
  | .ifExpE _ _ _ => true
  | _ => false

/-- The `new_block` helper: bump the global id counter, register a fresh
empty block, and hand back its id. -/
def newBlockP (s : St) : Nat × St :=
  let bid := s.counter + 1
  (bid, { s with counter := bid,
                 cfg := s.cfg.setBlocks (blkInsert bid (Blk.empty bid) s.cfg.blocks) })

/-- Mutate the block object with id `bid` in place (object-method
mutations such as `stmts.append` or `remove_from_prev` cannot raise in
Python, so this is total; the id is always registered when it is used). -/
def modBlk (bid : Nat) (f : Blk → Blk) (s : St) : St :=
  match blkFind bid s.cfg.blocks with
  | none => s
  | some b => { s with cfg := s.cfg.setBlocks (blkInsert bid (f b) s.cfg.blocks) }

/-- The `add_stmt` helper: append a statement to a block. -/
def addStmtP (bid : Nat) (stmt : PyAst) (s : St) : St :=
  modBlk bid (fun b => { b with stmts := b.stmts ++ [stmt] }) s

/-- The `add_edge` helper of `flows.py` (lines 235-240): append to the
successor and predecessor lists, record the guard in `edges`, insert the
pair into `flows`.  The two dict subscripts raise `KeyError` when the id
is unregistered. -/
def addEdgeS (frm toId : Nat) (cond : Option PyAst) (s : St) : Res :=
  match blkFind frm s.cfg.blocks with
  | none => .err .keyErr
  | some bf =>
    let c1 := s.cfg.setBlocks (blkInsert frm { bf with nxt := bf.nxt ++ [toId] } s.cfg.blocks)
    match blkFind toId c1.blocks with
    | none => .err .keyErr
    | some bt =>
      let c2 := c1.setBlocks (blkInsert toId { bt with prev := bt.prev ++ [frm] } c1.blocks)
      let c3 := c2.setEdges (alistInsert (frm, toId) cond c2.edges)
      .ok { s with cfg := c3.setFlows (setAdd (frm, toId) c3.flows) }

/-- Read the current block object (object access, total). -/
def currBlk (s : St) : Blk :=
  (blkFind s.curr s.cfg.blocks).getD (Blk.empty s.curr)

/-- The common visitor tail `add_stmt(curr, node);
curr = add_edge(curr.bid, new_block().bid)`. -/
def stmtAdvance (node : PyAst) (s : St) : Res :=
  let s1 := addStmtP s.curr node s
  let p := newBlockP s1
  (addEdgeS p.2.curr p.1 none p.2).andThen fun s3 => .ok { s3 with curr := p.1 }

/-- The `add_loop_block` helper fused with the `self.curr_block =
loop_guard` assignment that immediately follows each of its uses: reuse
the current block when it is empty and has no successor, otherwise create
and link a fresh block. -/
def addLoopBlockAndMove (s : St) : Res :=
  let cb := currBlk s
  if cb.stmts.isEmpty && cb.nxt.isEmpty then .ok s
  else
    let p := newBlockP s
    (addEdgeS p.2.curr p.1 none p.2).andThen fun s2 => .ok { s2 with curr := p.1 }

/-- Pop the loop and loop-guard stacks (the two `pop()` calls ending
`visit_While` / `visit_For`; `IndexError` on an empty stack). -/
def popLoops (s : St) : Res :=
  match s.loopStack with
  | [] => .err .idxErr
  | _ :: ls =>
    match s.loopGuardStack with
    | [] => .err .idxErr
    | _ :: gs => .ok { s with loopStack := ls, loopGuardStack := gs }

/-- Modelled from the spec: the external collaborator
`randoms.RandomVariableName.gen_random_name` (module `py2flows/cfg/randoms`,
not under `src/`); per spec section 6 it is a fresh-name generator each of
whose calls returns a string unique within the process, in a namespace
disjoint from generator-function names. -/
def freshVar (s : St) : String × St :=
  let n := s.varCount + 1
  ("_var" ++ toString n, { s with varCount := n })

/-- Modelled from the spec: the external collaborator
`randoms.RandomGeneratorName.gen_generator_name` (module
`py2flows/cfg/randoms`, not under `src/`); per spec section 6, a
fresh-name generator for generator-function names, disjoint from
temporary-variable names. -/
def freshGen (s : St) : String × St :=
  let n := s.genCount + 1
  ("_gen" ++ toString n, { s with genCount := n })

/-- The `add_condition` helper (lines 279-285): conjoin two optional edge
guards; an AST object is always truthy in Python, so `cond1 and cond2`
is non-`None` exactly when both are. -/
def addCondition (c1 c2 : Option PyAst) : Option PyAst :=
  match c1, c2 with
  | some a, some b => some (.boolOp true [a, b])
  | some a, none => some a
  | none, x => x

/-- The `combine_conditions` helper: a single condition is kept as is,
any other list is wrapped in one conjunction. -/
def combineConditions (l : List PyAst) : PyAst :=
  match l with
  | [x] => x
  | _ => .boolOp true l

/-- The `_visit_IfExp` lowering: a conditional expression inside a
`return` becomes nested `if` statements whose leaves return the arms. -/
def ifExpRec : PyAst → List PyAst
  | .ifExpE t b o =>
    [.ifS t
      (if isIfExp b then ifExpRec b else [.returnS (some b)])
      (if isIfExp o then ifExpRec o else [.returnS (some o)])]
  | _ => []

/-- The `_visit_ListComp` lowering.  `top` is `list_comp_stack[-1]`
(`none` models the empty stack, on which the subscript raises
`IndexError`); a non-empty accumulator name produces the `append` call,
the empty string produces a bare expression statement. -/
def listCompRec (top : Option String) (elt : PyAst) :
    List PyAst → Except BuildErr (List PyAst)
  | [] =>
    match top with
    | none => .error .idxErr
    | some acc =>
      if acc ≠ "" then
        .ok [.exprS (.call (.attribute (.name acc) "append") [elt] [])]
      else
        .ok [.exprS elt]
  | g :: rest =>
    match g with
    | .comprehension target iter ifs =>
      match listCompRec top elt rest with
      | .error e => .error e
      | .ok inner =>
        match ifs with
        | [] => .ok [.forS target iter inner []]
        | _ => .ok [.forS target iter [.ifS (combineConditions ifs) inner []] []]
    | _ => .error .notModelled

/-- The `_visit_SetComp` lowering (same shape, accumulating with `add`). -/
def setCompRec (top : Option String) (elt : PyAst) :
    List PyAst → Except BuildErr (List PyAst)
  | [] =>
    match top with
    | none => .error .idxErr
    | some acc =>
      if acc ≠ "" then
        .ok [.exprS (.call (.attribute (.name acc) "add") [elt] [])]
      else
        .ok [.exprS elt]
  | g :: rest =>
    match g with
    | .comprehension target iter ifs =>
      match setCompRec top elt rest with
      | .error e => .error e
      | .ok inner =>
        match ifs with
        | [] => .ok [.forS target iter inner []]
        | _ => .ok [.forS target iter [.ifS (combineConditions ifs) inner []] []]
    | _ => .error .notModelled

/-- The `_visit_DictComp` lowering (subscript assignment at the leaf; a
falsy accumulator name makes the source return `None`, which the
enclosing `Module` visit then ignores, hence the empty list). -/
def dictCompRec (top : Option String) (key value : PyAst) :
    List PyAst → Except BuildErr (List PyAst)
  | [] =>
    match top with
    | none => .error .idxErr
    | some acc =>
      if acc ≠ "" then
        .ok [.assign [.subscript (.name acc) key] value]
      else
        .ok []
  | g :: rest =>
    match g with
    | .comprehension target iter ifs =>
      match dictCompRec top key value rest with
      | .error e => .error e
      | .ok inner =>
        match ifs with
        | [] => .ok [.forS target iter inner []]
        | _ => .ok [.forS target iter [.ifS (combineConditions ifs) inner []] []]
    | _ => .error .notModelled

/-- The `_visit_GeneratorExp` lowering (yield at the leaf). -/
def genExpRec (elt : PyAst) : List PyAst → Except BuildErr (List PyAst)
  | [] => .ok [.exprS (.yieldE (some elt))]
  | g :: rest =>
    match g with
    | .comprehension target iter ifs =>
      match genExpRec elt rest with
      | .error e => .error e
      | .ok inner =>
        match ifs with
        | [] => .ok [.forS target iter inner []]
        | _ => .ok [.forS target iter [.ifS (combineConditions ifs) inner []] []]
    | _ => .error .notModelled

/-- The argument-lowering loop shared by `visit_Assign` and `visit_Call`:
each argument that is neither a bare name nor a literal number is bound
to a fresh temporary; returns the synthesized assignments, the replaced
argument list, and the advanced name-generator state. -/
def lowerArgs : List PyAst → St → (List PyAst × List PyAst × St)
  | [], s => ([], [], s)
  | a :: rest, s =>
    if isNameOrNum a then
      let r := lowerArgs rest s
      (r.1, a :: r.2.1, r.2.2)
    else
      let v := freshVar s
      let r := lowerArgs rest v.2
      (.assign [.name v.1] a :: r.1, .name v.1 :: r.2.1, r.2.2)

/-- The padding of positional parameters with their defaults performed by
`add_FuncCFG`: parameters without a default come first, paired with
`None`. -/
def buildArgList (names : List String) (defaults : List PyAst) :
    List (String × Option PyAst) :=
  let d := names.length - defaults.length
  (names.take d).map (fun a => (a, none)) ++ (names.drop d).zip (defaults.map some)

/-- Child nodes visited by the generic `ast.NodeVisitor.generic_visit`
descent, for the node kinds that have no dedicated visitor in
`flows.py` (field order follows the `ast` module). -/
def genericKids : PyAst → List PyAst
  | .attribute v _ => [v]
  | .subscript v i => [v, i]
  | .boolOp _ vs => vs
  | .binOp l _ r => [l, r]
  | .compare l _ r => [l, r]
  | .listE es => es
  | .dictE ks vs => ks ++ vs
  | .comprehension t i ifs => [t, i] ++ ifs
  | .raiseS e => e.toList
  | _ => []

/-- The edge-dropping tail shared by both loops of `remove_empty_blocks`:
pop the edge `k` from the edge map (`edges.pop(k, None)`), drop the list
back-reference on block `bid` (`remove_from_prev` / `remove_from_next`),
and remove `k` from `flows` when it is present, in source order. -/
def eraseStep (k : Nat × Nat) (bid : Nat) (f : Blk → Blk) (s : St) : St :=
  let s3 := { s with cfg := s.cfg.setEdges (alistErase k s.cfg.edges) }
  let s4 := modBlk bid f s3
  if k ∈ s4.cfg.flows then
    { s4 with cfg := s4.cfg.setFlows (setDel k s4.cfg.flows) }
  else s4

/-- The inner loop of `remove_empty_blocks` (lines 294-308), run for one
predecessor `prevBid` of the empty block `blkBid` over the snapshot of
its successor list: reconnect with the merged guard, re-add the pair to
`flows`, then pop the outgoing edge, the back reference and the flow. -/
def remInner (prevBid blkBid : Nat) : List Nat → St → Res
  | [], s => .ok s
  | nextBid :: rest, s =>
    match blkFind nextBid s.cfg.blocks with
    | none => .err .keyErr
    | some _ =>
      (addEdgeS prevBid nextBid
        (addCondition (edgeGet (prevBid, blkBid) s.cfg.edges)
          (edgeGet (blkBid, nextBid) s.cfg.edges)) s).andThen fun s1 =>
        let s2 := { s1 with cfg := s1.cfg.setFlows (setAdd (prevBid, nextBid) s1.cfg.flows) }
        remInner prevBid blkBid rest
          (eraseStep (blkBid, nextBid) nextBid
            (fun b => { b with prev := idDel blkBid b.prev }) s2)

/-- The outer loop of `remove_empty_blocks` (lines 292-312) over the
snapshot of the empty block's predecessor list. -/
def remPrev (blkBid : Nat) (nxts : List Nat) : List Nat → St → Res
  | [], s => .ok s
  | prevBid :: rest, s =>
    match blkFind prevBid s.cfg.blocks with
    | none => .err .keyErr
    | some _ =>
      (remInner prevBid blkBid nxts s).andThen fun s1 =>
        remPrev blkBid nxts rest
          (eraseStep (prevBid, blkBid) prevBid
            (fun b => { b with nxt := idDel blkBid b.nxt }) s1)

/-- Interpreter jobs: visit one node, visit a statement list, the
`populate_body_to_next_bid` pattern, the handler loop of `visit_Try`, a
whole `build`, and the `remove_empty_blocks` traversal (one block and a
list of blocks). -/
inductive Job : Type where
  | vis (node : PyAst)
  | seq (nodes : List PyAst)
  | fill (nodes : List PyAst) (toBid : Nat)
  | handlers (hs : List (Option PyAst × List PyAst)) (afterTry : Nat)
  | bld (nm : String) (tree : PyAst)
  | rem (bid : Nat)
  | remSeq (bids : List Nat)

/-- The fueled interpreter for `flows.py`'s `CFGVisitor`.  Each branch
transcribes the corresponding visitor; all recursive invocations spend
one unit of fuel, so `spin` only reports fuel exhaustion.  Loop snapshots:
the `for` loops of `remove_empty_blocks` iterate over the `prev` / `next`
lists read at loop entry, which matches the live Python lists because the
loop bodies never mutate the list being iterated (no block is its own
neighbour in any reachable state). -/
def run : Nat → Job → St → Res
  | 0, _, _ => .spin
  | fuel + 1, job, s =>
    match job with
    | .seq [] => .ok s
    | .seq (x :: xs) => (run fuel (.vis x) s).andThen (run fuel (.seq xs))
    | .fill nodes toBid =>
      (run fuel (.seq nodes) s).andThen fun s1 =>
        if (currBlk s1).nxt.isEmpty then addEdgeS s1.curr toBid none s1 else .ok s1
    | .handlers [] _ => .ok s
    | .handlers ((ty, hbody) :: rest) afterTry =>
      let p := newBlockP s
      let s2 := { p.2 with curr := p.1 }
      (addEdgeS afterTry p.1 (some (ty.getD (.name "Error"))) s2).andThen fun s3 =>
        let q := newBlockP s3
        let s5 := addStmtP q.1 (.name "end except") q.2
        (run fuel (.fill hbody q.1) s5).andThen fun s6 =>
          (addEdgeS q.1 afterTry none s6).andThen fun s7 =>
            run fuel (.handlers rest afterTry) s7
    | .bld nm tree =>
      let s0 : St :=
        { s with cfg := CFGd.fresh nm, loopStack := [], loopGuardStack := [],
                 listCompStack := [], setCompStack := [], dictCompStack := [],
                 genExpStack := [], lambdaStack := [], ifExpFlag := false }
      let p := newBlockP s0
      let s2 := { p.2 with cfg := p.2.cfg.setStart p.1, curr := p.1 }
      (run fuel (.vis tree) s2).andThen fun s3 =>
        run fuel (.rem s3.cfg.start) s3
    | .remSeq [] => .ok s
    | .remSeq (b :: bs) => (run fuel (.rem b) s).andThen (run fuel (.remSeq bs))
    | .rem bid =>
      if bid ∈ s.visited then .ok s
      else
        let sv := { s with visited := bid :: s.visited }
        match blkFind bid sv.cfg.blocks with
        | none => .err .keyErr
        | some b =>
          if b.stmts.isEmpty then
            (remPrev bid b.nxt b.prev sv).andThen fun s1 =>
              let s2 := modBlk bid (fun x => { x with prev := [] }) s1
              (run fuel (.remSeq b.nxt) s2).andThen fun s3 =>
                .ok (modBlk bid (fun x => { x with nxt := [] }) s3)
          else
            run fuel (.remSeq b.nxt) sv
    | .vis node =>
      match node with
      | .module body => run fuel (.seq body) s
      | .importS nm => stmtAdvance (.importS nm) s
      | .importFrom m nm => stmtAdvance (.importFrom m nm) s
      | .functionDef fname argNames defaults body =>
        let s1 := addStmtP s.curr (.functionDef fname argNames defaults body) s
        (run fuel (.bld fname (.module body)) s1).andThen fun sN =>
          let s2 :=
            { s1 with counter := sN.counter, varCount := sN.varCount,
                      genCount := sN.genCount, visited := sN.visited,
                      cfg := s1.cfg.setFuncCfgs
                        (strInsert fname (buildArgList argNames defaults, sN.cfg)
                          s1.cfg.funcCfgs) }
          let p := newBlockP s2
          (addEdgeS p.2.curr p.1 none p.2).andThen fun s3 => .ok { s3 with curr := p.1 }
      | .classDef cname body =>
        let s1 := addStmtP s.curr (.classDef cname body) s
        (run fuel (.bld cname (.module body)) s1).andThen fun sN =>
          let s2 :=
            { s1 with counter := sN.counter, varCount := sN.varCount,
                      genCount := sN.genCount, visited := sN.visited,
                      cfg := s1.cfg.setClassCfgs
                        (strInsert cname sN.cfg s1.cfg.classCfgs) }
          let p := newBlockP s2
          (addEdgeS p.2.curr p.1 none p.2).andThen fun s3 => .ok { s3 with curr := p.1 }
      | .assign targets value =>
        match value with
        | .call fn args kw =>
          if args.any isCall then
            let r := lowerArgs args s
            run fuel (.seq (r.1 ++ [.assign targets (.call fn r.2.1 kw)])) r.2.2
          else
            stmtAdvance (.assign targets (.call fn args kw)) s
        | .listComp elt gens =>
          let v := freshVar s
          let s2 := { v.2 with listCompStack := v.1 :: v.2.listCompStack }
          let s3 := addStmtP s2.curr (.assign [.name v.1] (.listE [])) s2
          let p := newBlockP s3
          (addEdgeS p.2.curr p.1 none p.2).andThen fun s4 =>
            (run fuel (.vis (.listComp elt gens)) { s4 with curr := p.1 }).andThen fun s5 =>
              match s5.listCompStack with
              | [] => .err .idxErr
              | old :: rest =>
                let s6 := { s5 with listCompStack := rest }
                let s7 := addStmtP s6.curr (.assign targets (.name old)) s6
                let q := newBlockP s7
                (addEdgeS q.2.curr q.1 none q.2).andThen fun s8 => .ok { s8 with curr := q.1 }
        | .setComp elt gens =>
          let v := freshVar s
          let s2 := { v.2 with setCompStack := v.1 :: v.2.setCompStack }
          let s3 := addStmtP s2.curr
            (.assign [.name v.1] (.call (.name "set") [] [])) s2
          let p := newBlockP s3
          (addEdgeS p.2.curr p.1 none p.2).andThen fun s4 =>
            (run fuel (.vis (.setComp elt gens)) { s4 with curr := p.1 }).andThen fun s5 =>
              match s5.setCompStack with
              | [] => .err .idxErr
              | old :: rest =>
                let s6 := { s5 with setCompStack := rest }
                let s7 := addStmtP s6.curr (.assign targets (.name old)) s6
                let q := newBlockP s7
                (addEdgeS q.2.curr q.1 none q.2).andThen fun s8 => .ok { s8 with curr := q.1 }
        | .dictComp key dval gens =>
          let v := freshVar s
          let s2 := { v.2 with dictCompStack := v.1 :: v.2.dictCompStack }
          let s3 := addStmtP s2.curr (.assign [.name v.1] (.dictE [] [])) s2
          let p := newBlockP s3
          (addEdgeS p.2.curr p.1 none p.2).andThen fun s4 =>
            (run fuel (.vis (.dictComp key dval gens)) { s4 with curr := p.1 }).andThen fun s5 =>
              match s5.dictCompStack with
              | [] => .err .idxErr
              | old :: rest =>
                let s6 := { s5 with dictCompStack := rest }
                let s7 := addStmtP s6.curr (.assign targets (.name old)) s6
                let q := newBlockP s7
                (addEdgeS q.2.curr q.1 none q.2).andThen fun s8 => .ok { s8 with curr := q.1 }
        | .genExp elt gens =>
          let v := freshGen s
          let s2 := { v.2 with genExpStack := v.1 :: v.2.genExpStack }
          (run fuel (.vis (.genExp elt gens)) s2).andThen fun s3 =>
            match s3.genExpStack with
            | [] => .err .idxErr
            | _ :: rest =>
              run fuel
                (.vis (.assign targets (.call (.name v.1) [] [])))
                { s3 with genExpStack := rest }
        | other => stmtAdvance (.assign targets other) s
      | .call fn args kw =>
        if args.any isCall then
          let r := lowerArgs args s
          run fuel (.seq (r.1 ++ [.call fn r.2.1 kw])) r.2.2
        else
          stmtAdvance (.call fn args kw) s
      | .augAssign t op v => stmtAdvance (.augAssign t op v) s
      | .ifS test body orelse =>
        let s1 := addStmtP s.curr (.ifS test body orelse) s
        let pAfter := newBlockP s1
        let afterIf := pAfter.1
        let pBody := newBlockP pAfter.2
        (addEdgeS pBody.2.curr pBody.1 none pBody.2).andThen fun s4 =>
          (match orelse with
           | [] => addEdgeS s4.curr afterIf none s4
           | _ =>
             let pElse := newBlockP s4
             (addEdgeS pElse.2.curr pElse.1 none pElse.2).andThen fun s6 =>
               run fuel (.fill orelse afterIf) { s6 with curr := pElse.1 }
          ).andThen fun s7 =>
            (run fuel (.fill body afterIf) { s7 with curr := pBody.1 }).andThen fun s8 =>
              .ok { s8 with curr := afterIf }
      | .whileS test body orelse =>
        (addLoopBlockAndMove s).andThen fun sg =>
          let guard := sg.curr
          let s1 := addStmtP guard (.whileS test body orelse) sg
          let s2 := { s1 with loopGuardStack := guard :: s1.loopGuardStack }
          let pAfter := newBlockP s2
          (addEdgeS pAfter.2.curr pAfter.1 none pAfter.2).andThen fun s4 =>
            let s5 := { s4 with loopStack := pAfter.1 :: s4.loopStack }
            (match orelse with
             | [] =>
               let pBody := newBlockP s5
               (addEdgeS pBody.2.curr pBody.1 none pBody.2).andThen fun s7 =>
                 run fuel (.fill body guard) { s7 with curr := pBody.1 }
             | _ =>
               let pOr := newBlockP s5
               (addEdgeS pOr.2.curr pOr.1 none pOr.2).andThen fun s7 =>
                 let pBody := newBlockP s7
                 (addEdgeS pBody.2.curr pBody.1 none pBody.2).andThen fun s8 =>
                   (run fuel (.fill body guard) { s8 with curr := pBody.1 }).andThen fun s9 =>
                     run fuel (.fill orelse pAfter.1) { s9 with curr := pOr.1 }
            ).andThen fun s10 =>
              popLoops { s10 with curr := pAfter.1 }
      | .forS target iter body orelse =>
        match iter with
        | .listComp e g =>
          let v := freshVar s
          run fuel (.seq [.assign [.name v.1] (.listComp e g),
                          .forS target (.name v.1) body orelse]) v.2
        | .setComp e g =>
          let v := freshVar s
          run fuel (.seq [.assign [.name v.1] (.setComp e g),
                          .forS target (.name v.1) body orelse]) v.2
        | .dictComp k dv g =>
          let v := freshVar s
          run fuel (.seq [.assign [.name v.1] (.dictComp k dv g),
                          .forS target (.name v.1) body orelse]) v.2
        | _ =>
          (addLoopBlockAndMove s).andThen fun sg =>
            let guard := sg.curr
            let s1 := addStmtP guard (.forS target iter body orelse) sg
            let s2 := { s1 with loopGuardStack := guard :: s1.loopGuardStack }
            let pFor := newBlockP s2
            (addEdgeS pFor.2.curr pFor.1 none pFor.2).andThen fun s4 =>
              let pAfter := newBlockP s4
              (addEdgeS pAfter.2.curr pAfter.1 none pAfter.2).andThen fun s6 =>
                let s7 := { s6 with loopStack := pAfter.1 :: s6.loopStack }
                (match orelse with
                 | [] => run fuel (.fill body guard) { s7 with curr := pFor.1 }
                 | _ =>
                   let pOr := newBlockP s7
                   (addEdgeS pOr.2.curr pOr.1 none pOr.2).andThen fun s8 =>
                     (run fuel (.fill body guard) { s8 with curr := pFor.1 }).andThen fun s9 =>
                       run fuel (.fill orelse pAfter.1) { s9 with curr := pOr.1 }
                ).andThen fun s10 =>
                  popLoops { s10 with curr := pAfter.1 }
      | .breakS =>
        match s.loopStack with
        | [] => .err .assertBreak
        | top :: _ =>
          let s1 := addStmtP s.curr .breakS s
          addEdgeS s1.curr top none s1
      | .continueS =>
        let s1 := addStmtP s.curr .continueS s
        match s1.loopGuardStack with
        | [] => .err .assertContinue
        | top :: _ => addEdgeS s1.curr top none s1
      | .returnS value =>
        (match value with
         | some (.ifExpE t b o) =>
           (run fuel (.seq [.ifExpE t b o]) { s with ifExpFlag := true }).andThen fun s2 =>
             .ok { s2 with ifExpFlag := false }
         | _ =>
           let s1 := addStmtP s.curr (.returnS value) s
           .ok { s1 with cfg := s1.cfg.setFinalBlocks (s1.cfg.finalBlocks ++ [s1.curr]) }
        ).andThen fun s3 =>
          let p := newBlockP s3
          .ok { p.2 with curr := p.1 }
      | .passS => stmtAdvance .passS s
      | .assertS test msg =>
        let s1 := addStmtP s.curr (.assertS test msg) s
        let s2 := { s1 with cfg := s1.cfg.setFinalBlocks (s1.cfg.finalBlocks ++ [s1.curr]) }
        let p := newBlockP s2
        (addEdgeS p.2.curr p.1 none p.2).andThen fun s4 => .ok { s4 with curr := p.1 }
      | .tryS body handlers orelse finalbody =>
        (addLoopBlockAndMove s).andThen fun sg =>
          let s1 := addStmtP sg.curr (.tryS [] [] [] []) sg
          let pAT := newBlockP s1
          let afterTry := pAT.1
          let s3 := addStmtP afterTry (.name "handle errors") pAT.2
          (run fuel (.fill body afterTry) s3).andThen fun s4 =>
            (run fuel (.handlers handlers afterTry) { s4 with curr := afterTry }).andThen fun s6 =>
              (match orelse with
               | [] => Res.ok s6
               | _ =>
                 let pBE := newBlockP s6
                 (addEdgeS afterTry pBE.1 (some (.name "No Error"))
                     { pBE.2 with curr := pBE.1 }).andThen fun s9 =>
                   let pAE := newBlockP s9
                   let s11 := addStmtP pAE.1 (.name "end no error") pAE.2
                   (run fuel (.fill orelse pAE.1) s11).andThen fun s12 =>
                     addEdgeS pAE.1 afterTry none s12
              ).andThen fun s13 =>
                let pFin := newBlockP s13
                let s15 := { pFin.2 with curr := pFin.1 }
                match finalbody with
                | [] => addEdgeS afterTry pFin.1 none s15
                | _ =>
                  (addEdgeS afterTry pFin.1 (some (.name "Finally")) s15).andThen fun s16 =>
                    let pAF := newBlockP s16
                    (run fuel (.fill finalbody pAF.1) pAF.2).andThen fun s18 =>
                      .ok { s18 with curr := pAF.1 }
      | .exprS v => run fuel (.seq [v]) s
      | .yieldE v => stmtAdvance (.yieldE v) s
      | .listComp elt gens =>
        match listCompRec s.listCompStack.head? elt gens with
        | .error e => .err e
        | .ok generated => run fuel (.seq generated) s
      | .setComp elt gens =>
        match setCompRec s.setCompStack.head? elt gens with
        | .error e => .err e
        | .ok generated => run fuel (.seq generated) s
      | .dictComp key dval gens =>
        match dictCompRec s.dictCompStack.head? key dval gens with
        | .error e => .err e
        | .ok generated => run fuel (.seq generated) s
      | .genExp elt gens =>
        match s.genExpStack with
        | [] => .err .idxErr
        | gname :: _ =>
          match genExpRec elt gens with
          | .error e => .err e
          | .ok genBody => run fuel (.vis (.functionDef gname [] [] genBody)) s
      | .ifExpE t b o =>
        if s.ifExpFlag then run fuel (.seq (ifExpRec (.ifExpE t b o))) s
        else .ok s
      | .lambdaE _ _ => .err .lambdaArg
      | other => run fuel (.seq (genericKids other)) s

/-- The initial process state: empty CFG, all counters zero. -/
def initSt : St :=
  { cfg := CFGd.fresh "", curr := 0, counter := 0, varCount := 0, genCount := 0,
    loopStack := [], loopGuardStack := [], listCompStack := [], setCompStack := [],
    dictCompStack := [], genExpStack := [], lambdaStack := [], ifExpFlag := false,
    visited := [] }

/-- The public entry point `CFGVisitor().build(name, tree)` run from a
fresh process (the global id counter at zero). -/
def build (fuel : Nat) (nm : String) (tree : PyAst) : Res :=
  run fuel (.bld nm tree) initSt

end FlowsPy

/-- The key set of the edge map. -/
def keysOf (c : CFGd) : List (Nat × Nat) := c.edges.map Prod.fst

@[simp] lemma setEdges_edges (c : CFGd) (v) : (c.setEdges v).edges = v := by
  cases c; rfl

@[simp] lemma setEdges_flows (c : CFGd) (v) : (c.setEdges v).flows = c.flows := by
  cases c; rfl

@[simp] lemma setFlows_flows (c : CFGd) (v) : (c.setFlows v).flows = v := by
  cases c; rfl

@[simp] lemma setFlows_edges (c : CFGd) (v) : (c.setFlows v).edges = c.edges := by
  cases c; rfl

@[simp] lemma setBlocks_edges (c : CFGd) (v) : (c.setBlocks v).edges = c.edges := by
  cases c; rfl

@[simp] lemma setBlocks_flows (c : CFGd) (v) : (c.setBlocks v).flows = c.flows := by
  cases c; rfl

@[simp] lemma setStart_edges (c : CFGd) (v) : (c.setStart v).edges = c.edges := by
  cases c; rfl

@[simp] lemma setStart_flows (c : CFGd) (v) : (c.setStart v).flows = c.flows := by
  cases c; rfl

@[simp] lemma setFinalBlocks_edges (c : CFGd) (v) : (c.setFinalBlocks v).edges = c.edges := by
  cases c; rfl

@[simp] lemma setFinalBlocks_flows (c : CFGd) (v) : (c.setFinalBlocks v).flows = c.flows := by
  cases c; rfl

@[simp] lemma setFuncCfgs_edges (c : CFGd) (v) : (c.setFuncCfgs v).edges = c.edges := by
  cases c; rfl

@[simp] lemma setFuncCfgs_flows (c : CFGd) (v) : (c.setFuncCfgs v).flows = c.flows := by
  cases c; rfl

@[simp] lemma setClassCfgs_edges (c : CFGd) (v) : (c.setClassCfgs v).edges = c.edges := by
  cases c; rfl

@[simp] lemma setClassCfgs_flows (c : CFGd) (v) : (c.setClassCfgs v).flows = c.flows := by
  cases c; rfl


lemma alistErase_sublist {β : Type} (k : Nat × Nat) (l : List ((Nat × Nat) × β)) :
    List.Sublist (alistErase k l) l := by
  induction l with
  | nil => simp [alistErase]
  | cons hd tl ih =>
    rcases hd with ⟨k2, v⟩
    simp only [alistErase]
    by_cases h : k2 = k
    · rw [if_pos h]
      exact List.sublist_cons_self _ _
    · rw [if_neg h]
      exact ih.cons₂ _

lemma mem_keys_alistErase_of_ne {β : Type} {k p : Nat × Nat}
    {l : List ((Nat × Nat) × β)} (hne : p ≠ k) :
    p ∈ (alistErase k l).map Prod.fst ↔ p ∈ l.map Prod.fst := by
  induction l with
  | nil => simp [alistErase]
  | cons hd tl ih =>
    rcases hd with ⟨k2, v⟩
    simp only [alistErase]
    by_cases h : k2 = k
    · rw [if_pos h]
      subst h
      simp only [List.map_cons, List.mem_cons]
      constructor
      · exact Or.inr
      · rintro (rfl | hm)
        · exact absurd rfl hne
        · exact hm
    · rw [if_neg h]
      simp only [List.map_cons, List.mem_cons]
      rw [ih]

lemma not_mem_keys_alistErase {β : Type} {k : Nat × Nat}
    {l : List ((Nat × Nat) × β)} (h : (l.map Prod.fst).Nodup) :
    k ∉ (alistErase k l).map Prod.fst := by
  induction l with
  | nil => simp [alistErase]
  | cons hd tl ih =>
    rcases hd with ⟨k2, v⟩
    simp only [List.map_cons, List.nodup_cons] at h
    simp only [alistErase]
    by_cases he : k2 = k
    · rw [if_pos he]
      subst he
      exact h.1
    · rw [if_neg he]
      simp only [List.map_cons, List.mem_cons]
      rintro (rfl | hm)
      · exact he rfl
      · exact ih h.2 hm

lemma nodup_keys_alistErase {β : Type} {k : Nat × Nat}
    {l : List ((Nat × Nat) × β)} (h : (l.map Prod.fst).Nodup) :
    ((alistErase k l).map Prod.fst).Nodup :=
  h.sublist ((alistErase_sublist k l).map _)

lemma mem_keys_alistInsert {β : Type} {k p : Nat × Nat} {v : β}
    {l : List ((Nat × Nat) × β)} :
    p ∈ (alistInsert k v l).map Prod.fst ↔ p = k ∨ p ∈ l.map Prod.fst := by
  unfold alistInsert
  by_cases hpk : p = k
  · simp [hpk]
  · simp only [List.map_cons, List.mem_cons, hpk, false_or]
    exact mem_keys_alistErase_of_ne hpk

lemma nodup_keys_alistInsert {β : Type} {k : Nat × Nat} {v : β}
    {l : List ((Nat × Nat) × β)} (h : (l.map Prod.fst).Nodup) :
    ((alistInsert k v l).map Prod.fst).Nodup := by
  unfold alistInsert
  simp only [List.map_cons, List.nodup_cons]
  exact ⟨not_mem_keys_alistErase h, nodup_keys_alistErase h⟩

lemma mem_setAdd {p q : Nat × Nat} {l : List (Nat × Nat)} :
    p ∈ setAdd q l ↔ p = q ∨ p ∈ l := by
  unfold setAdd
  by_cases h : q ∈ l
  · rw [if_pos h]
    constructor
    · exact Or.inr
    · rintro (rfl | hm)
      · exact h
      · exact hm
  · rw [if_neg h]
    exact List.mem_cons

lemma nodup_setAdd {q : Nat × Nat} {l : List (Nat × Nat)} (h : l.Nodup) :
    (setAdd q l).Nodup := by
  unfold setAdd
  by_cases hq : q ∈ l
  · rw [if_pos hq]
    exact h
  · rw [if_neg hq]
    exact List.nodup_cons.mpr ⟨hq, h⟩

lemma setAdd_of_mem {q : Nat × Nat} {l : List (Nat × Nat)} (h : q ∈ l) :
    setAdd q l = l := by
  unfold setAdd
  exact if_pos h

lemma setDel_sublist (q : Nat × Nat) (l : List (Nat × Nat)) :
    List.Sublist (setDel q l) l := by
  induction l with
  | nil => simp [setDel]
  | cons hd tl ih =>
    simp only [setDel]
    by_cases h : hd = q
    · rw [if_pos h]
      exact List.sublist_cons_self _ _
    · rw [if_neg h]
      exact ih.cons₂ _

lemma nodup_setDel {q : Nat × Nat} {l : List (Nat × Nat)} (h : l.Nodup) :
    (setDel q l).Nodup :=
  h.sublist (setDel_sublist q l)

lemma mem_setDel {p q : Nat × Nat} {l : List (Nat × Nat)} (h : l.Nodup) :
    p ∈ setDel q l ↔ p ∈ l ∧ p ≠ q := by
  induction l with
  | nil => simp [setDel]
  | cons hd tl ih =>
    rw [List.nodup_cons] at h
    simp only [setDel]
    by_cases he : hd = q
    · rw [if_pos he]
      subst he
      constructor
      · intro hm
        exact ⟨List.mem_cons_of_mem _ hm, fun hpq => h.1 (hpq ▸ hm)⟩
      · rintro ⟨hm, hne⟩
        rcases List.mem_cons.mp hm with rfl | hm2
        · exact absurd rfl hne
        · exact hm2
    · rw [if_neg he]
      simp only [List.mem_cons]
      rw [ih h.2]
      constructor
      · rintro (rfl | ⟨hm, hne⟩)
        · exact ⟨Or.inl rfl, he⟩
        · exact ⟨Or.inr hm, hne⟩
      · rintro ⟨rfl | hm, hne⟩
        · exact Or.inl rfl
        · exact Or.inr ⟨hm, hne⟩

/-- Claim I4's relation: the `flows` set and the key set of the edge map
contain the same pairs (the meaning of `flows == set(edges.keys())`). -/
def EdgeSync (c : CFGd) : Prop := ∀ p : Nat × Nat, p ∈ c.flows ↔ p ∈ keysOf c

/-- The maintained edge/flow invariant: `flows` mirrors the edge keys,
the edge map has no duplicate keys (at most one edge per ordered pair),
and `flows` has no duplicates (it models a Python set). -/
def EFInv (c : CFGd) : Prop := EdgeSync c ∧ (keysOf c).Nodup ∧ c.flows.Nodup

lemma efinv_congr {c c' : CFGd} (he : c'.edges = c.edges)
    (hf : c'.flows = c.flows) : EFInv c → EFInv c' := by
  intro h
  obtain ⟨hs, hk, hn⟩ := h
  have hkeys : keysOf c' = keysOf c := by simp only [keysOf, he]
  refine ⟨fun p => ?_, ?_, ?_⟩
  · rw [EdgeSync] at hs
    rw [hkeys, hf]
    exact hs p
  · rw [hkeys]
    exact hk
  · rw [hf]
    exact hn

lemma efinv_pair_insert {c : CFGd} {k : Nat × Nat} {v : Option PyAst}
    (h : EFInv c) :
    EFInv ((c.setEdges (alistInsert k v c.edges)).setFlows (setAdd k c.flows)) := by
  obtain ⟨hs, hk, hn⟩ := h
  refine ⟨fun p => ?_, ?_, ?_⟩
  · simp only [keysOf, setFlows_flows, setFlows_edges, setEdges_edges]
    rw [mem_setAdd, mem_keys_alistInsert]
    exact or_congr Iff.rfl (hs p)
  · simp only [keysOf, setFlows_edges, setEdges_edges]
    exact nodup_keys_alistInsert hk
  · simp only [setFlows_flows]
    exact nodup_setAdd hn

lemma efinv_pair_erase {c : CFGd} {k : Nat × Nat} (h : EFInv c) :
    EFInv ((c.setEdges (alistErase k c.edges)).setFlows
      (if k ∈ c.flows then setDel k c.flows else c.flows)) := by
  obtain ⟨hs, hk, hn⟩ := h
  refine ⟨fun p => ?_, ?_, ?_⟩
  · simp only [keysOf, setFlows_flows, setFlows_edges, setEdges_edges]
    by_cases hpk : p = k
    · subst hpk
      constructor
      · intro hmem
        by_cases hin : p ∈ c.flows
        · rw [if_pos hin] at hmem
          exact absurd ((mem_setDel hn).mp hmem).2 (by simp)
        · rw [if_neg hin] at hmem
          exact absurd hmem hin
      · intro hmem
        exact absurd hmem (not_mem_keys_alistErase hk)
    · rw [mem_keys_alistErase_of_ne hpk]
      by_cases hin : k ∈ c.flows
      · rw [if_pos hin, mem_setDel hn]
        constructor
        · exact fun hm => (hs p).mp hm.1
        · exact fun hm => ⟨(hs p).mpr hm, hpk⟩
      · rw [if_neg hin]
        exact hs p
  · simp only [keysOf, setFlows_edges, setEdges_edges]
    exact nodup_keys_alistErase hk
  · simp only [setFlows_flows]
    split
    · exact nodup_setDel hn
    · exact hn

lemma efinv_fresh (nm : String) : EFInv (CFGd.fresh nm) := by
  refine ⟨fun p => ?_, ?_, ?_⟩ <;>
    simp [CFGd.fresh, keysOf, CFGd.edges, CFGd.flows]

namespace FlowsPy

lemma andThen_ok {r : Res} {f : St → Res} {s' : St} :
    r.andThen f = .ok s' ↔ ∃ s1, r = .ok s1 ∧ f s1 = .ok s' := by
  cases r <;> simp [Res.andThen]

@[simp] lemma modBlk_cfg_edges (bid : Nat) (f : Blk → Blk) (s : St) :
    (modBlk bid f s).cfg.edges = s.cfg.edges := by
  unfold modBlk
  cases blkFind bid s.cfg.blocks <;> simp

@[simp] lemma modBlk_cfg_flows (bid : Nat) (f : Blk → Blk) (s : St) :
    (modBlk bid f s).cfg.flows = s.cfg.flows := by
  unfold modBlk
  cases blkFind bid s.cfg.blocks <;> simp

@[simp] lemma addStmtP_cfg_edges (bid : Nat) (st : PyAst) (s : St) :
    (addStmtP bid st s).cfg.edges = s.cfg.edges := by
  unfold addStmtP
  simp

@[simp] lemma addStmtP_cfg_flows (bid : Nat) (st : PyAst) (s : St) :
    (addStmtP bid st s).cfg.flows = s.cfg.flows := by
  unfold addStmtP
  simp

@[simp] lemma newBlockP_cfg_edges (s : St) :
    ((newBlockP s).2).cfg.edges = s.cfg.edges := by
  unfold newBlockP
  simp

@[simp] lemma newBlockP_cfg_flows (s : St) :
    ((newBlockP s).2).cfg.flows = s.cfg.flows := by
  unfold newBlockP
  simp

lemma efinv_addEdgeS {frm toId : Nat} {cond : Option PyAst} {s s' : St}
    (hr : addEdgeS frm toId cond s = .ok s') (h : EFInv s.cfg) : EFInv s'.cfg := by
  simp only [addEdgeS] at hr
  split at hr
  · exact absurd hr (by simp)
  · split at hr
    · exact absurd hr (by simp)
    · rw [Res.ok.injEq] at hr
      subst hr
      simp only [setEdges_flows]
      exact efinv_pair_insert (efinv_congr (by simp) (by simp) h)

lemma mem_keys_addEdgeS {frm toId : Nat} {cond : Option PyAst} {s s' : St}
    (hr : addEdgeS frm toId cond s = .ok s') : (frm, toId) ∈ keysOf s'.cfg := by
  simp only [addEdgeS] at hr
  split at hr
  · exact absurd hr (by simp)
  · split at hr
    · exact absurd hr (by simp)
    · rw [Res.ok.injEq] at hr
      subst hr
      simp only [keysOf, setFlows_edges, setEdges_edges]
      exact mem_keys_alistInsert.mpr (Or.inl rfl)

lemma efinv_flowAdd_mem {c : CFGd} {k : Nat × Nat} (h : EFInv c)
    (hk : k ∈ keysOf c) : EFInv (c.setFlows (setAdd k c.flows)) := by
  rw [setAdd_of_mem ((h.1 k).mpr hk)]
  exact efinv_congr (by simp) (by simp) h

lemma efinv_eraseStep {k : Nat × Nat} {bid : Nat} {f : Blk → Blk} {s : St}
    (h : EFInv s.cfg) : EFInv (eraseStep k bid f s).cfg := by
  unfold eraseStep
  have hfl : (modBlk bid f
      { s with cfg := s.cfg.setEdges (alistErase k s.cfg.edges) }).cfg.flows
      = s.cfg.flows := by simp
  have hed : (modBlk bid f
      { s with cfg := s.cfg.setEdges (alistErase k s.cfg.edges) }).cfg.edges
      = alistErase k s.cfg.edges := by simp
  have base := efinv_pair_erase (k := k) h
  by_cases hmem : k ∈ s.cfg.flows
  · rw [if_pos (by rw [hfl]; exact hmem)]
    refine efinv_congr ?_ ?_ base
    · simp [hed]
    · simp [hfl, if_pos hmem]
  · rw [if_neg (by rw [hfl]; exact hmem)]
    refine efinv_congr ?_ ?_ base
    · simp [hed]
    · simp [hfl, if_neg hmem]

lemma efinv_stmtAdvance {node : PyAst} {s s' : St}
    (hr : stmtAdvance node s = .ok s') (h : EFInv s.cfg) : EFInv s'.cfg := by
  simp only [stmtAdvance] at hr
  rw [andThen_ok] at hr
  obtain ⟨s1, h1, h2⟩ := hr
  rw [Res.ok.injEq] at h2
  subst h2
  have hres : EFInv s1.cfg := efinv_addEdgeS h1 (efinv_congr (by simp) (by simp) h)
  exact hres

lemma efinv_addLoopBlockAndMove {s s' : St}
    (hr : addLoopBlockAndMove s = .ok s') (h : EFInv s.cfg) : EFInv s'.cfg := by
  simp only [addLoopBlockAndMove] at hr
  split at hr
  · rw [Res.ok.injEq] at hr
    subst hr
    exact h
  · rw [andThen_ok] at hr
    obtain ⟨s1, h1, h2⟩ := hr
    rw [Res.ok.injEq] at h2
    subst h2
    have hres : EFInv s1.cfg := efinv_addEdgeS h1 (efinv_congr (by simp) (by simp) h)
    exact hres

lemma popLoops_cfg {s s' : St} (hr : popLoops s = .ok s') : s'.cfg = s.cfg := by
  simp only [popLoops] at hr
  split at hr
  · exact absurd hr (by simp)
  · split at hr
    · exact absurd hr (by simp)
    · rw [Res.ok.injEq] at hr
      subst hr
      rfl

lemma efinv_remInner {prevBid blkBid : Nat} : ∀ (nxts : List Nat) (s s' : St),
    remInner prevBid blkBid nxts s = .ok s' → EFInv s.cfg → EFInv s'.cfg := by
  intro nxts
  induction nxts with
  | nil =>
    intro s s' hr h
    simp only [remInner] at hr
    rw [Res.ok.injEq] at hr
    subst hr
    exact h
  | cons nb rest ih =>
    intro s s' hr h
    simp only [remInner] at hr
    split at hr
    · exact absurd hr (by simp)
    · rw [andThen_ok] at hr
      obtain ⟨s1, h1, h2⟩ := hr
      have hinv1 : EFInv s1.cfg := efinv_addEdgeS h1 h
      have hmem : (prevBid, nb) ∈ keysOf s1.cfg := mem_keys_addEdgeS h1
      have hinv2 : EFInv (s1.cfg.setFlows (setAdd (prevBid, nb) s1.cfg.flows)) :=
        efinv_flowAdd_mem hinv1 hmem
      exact ih _ _ h2
        (efinv_eraseStep
          (s := { s1 with cfg := s1.cfg.setFlows (setAdd (prevBid, nb) s1.cfg.flows) })
          hinv2)

lemma efinv_remPrev {blkBid : Nat} {nxts : List Nat} : ∀ (prevs : List Nat) (s s' : St),
    remPrev blkBid nxts prevs s = .ok s' → EFInv s.cfg → EFInv s'.cfg := by
  intro prevs
  induction prevs with
  | nil =>
    intro s s' hr h
    simp only [remPrev] at hr
    rw [Res.ok.injEq] at hr
    subst hr
    exact h
  | cons pb rest ih =>
    intro s s' hr h
    simp only [remPrev] at hr
    split at hr
    · exact absurd hr (by simp)
    · rw [andThen_ok] at hr
      obtain ⟨s1, h1, h2⟩ := hr
      exact ih _ _ h2 (efinv_eraseStep (efinv_remInner _ _ _ h1 h))

end FlowsPy

namespace FlowsPy

@[simp] lemma freshVar_cfg (s : St) : (freshVar s).2.cfg = s.cfg := rfl

@[simp] lemma freshGen_cfg (s : St) : (freshGen s).2.cfg = s.cfg := rfl

lemma lowerArgs_cfg : ∀ (l : List PyAst) (s : St), ((lowerArgs l s).2.2).cfg = s.cfg := by
  intro l
  induction l with
  | nil => intro s; rfl
  | cons a rest ih =>
    intro s
    simp only [lowerArgs]
    split
    · exact ih s
    · exact ih (freshVar s).2

/-- Every successful interpreter step preserves the edge/flow invariant:
`flows` mirrors the edge-map keys, the edge map has at most one entry per
ordered pair, and `flows` is duplicate free. -/
lemma efinv_run : ∀ (fuel : Nat) (job : Job) (s s' : St),
    run fuel job s = .ok s' → EFInv s.cfg → EFInv s'.cfg := by
  intro fuel
  induction fuel with
  | zero =>
    intro job s s' hr _
    simp [run] at hr
  | succ n ih =>
    intro job s s' hr h
    cases job with
    | seq nodes =>
      cases nodes with
      | nil =>
        simp only [run] at hr
        rw [Res.ok.injEq] at hr
        subst hr
        exact h
      | cons x xs =>
        simp only [run] at hr
        rw [andThen_ok] at hr
        obtain ⟨s1, h1, h2⟩ := hr
        exact ih _ _ _ h2 (ih _ _ _ h1 h)
    | fill nodes toBid =>
      simp only [run] at hr
      rw [andThen_ok] at hr
      obtain ⟨s1, h1, h2⟩ := hr
      have hinv1 : EFInv s1.cfg := ih _ _ _ h1 h
      split at h2
      · exact efinv_addEdgeS h2 hinv1
      · rw [Res.ok.injEq] at h2
        subst h2
        exact hinv1
    | handlers hs afterTry =>
      cases hs with
      | nil =>
        simp only [run] at hr
        rw [Res.ok.injEq] at hr
        subst hr
        exact h
      | cons hd rest =>
        rcases hd with ⟨ty, hbody⟩
        simp only [run] at hr
        rw [andThen_ok] at hr
        obtain ⟨s3, h1, h2⟩ := hr
        have hinv3 : EFInv s3.cfg := efinv_addEdgeS h1 (efinv_congr (by simp) (by simp) h)
        rw [andThen_ok] at h2
        obtain ⟨s6, h3, h4⟩ := h2
        have hinv6 : EFInv s6.cfg := ih _ _ _ h3 (efinv_congr (by simp) (by simp) hinv3)
        rw [andThen_ok] at h4
        obtain ⟨s7, h5, h6⟩ := h4
        exact ih _ _ _ h6 (efinv_addEdgeS h5 hinv6)
    | bld nm tree =>
      simp only [run] at hr
      rw [andThen_ok] at hr
      obtain ⟨s3, h1, h2⟩ := hr
      have hinv3 : EFInv s3.cfg :=
        ih _ _ _ h1 (efinv_congr (by simp) (by simp) (efinv_fresh nm))
      exact ih _ _ _ h2 hinv3
    | remSeq bids =>
      cases bids with
      | nil =>
        simp only [run] at hr
        rw [Res.ok.injEq] at hr
        subst hr
        exact h
      | cons b bs =>
        simp only [run] at hr
        rw [andThen_ok] at hr
        obtain ⟨s1, h1, h2⟩ := hr
        exact ih _ _ _ h2 (ih _ _ _ h1 h)
    | rem bid =>
      simp only [run] at hr
      split at hr
      · rw [Res.ok.injEq] at hr
        subst hr
        exact h
      · split at hr
        · exact absurd hr (by simp)
        · split at hr
          · rw [andThen_ok] at hr
            obtain ⟨s1, h1, h2⟩ := hr
            have hinv1 : EFInv s1.cfg := efinv_remPrev _ _ _ h1 h
            rw [andThen_ok] at h2
            obtain ⟨s3, h3, h4⟩ := h2
            have hinv3 : EFInv s3.cfg := ih _ _ _ h3 (efinv_congr (by simp) (by simp) hinv1)
            rw [Res.ok.injEq] at h4
            subst h4
            exact efinv_congr (by simp) (by simp) hinv3
          · exact ih _ _ _ hr h
    | vis node =>
      cases node
      case module body =>
        simp only [run] at hr
        exact ih _ _ _ hr h
      case functionDef fname argNames defaults body =>
        simp only [run] at hr
        rw [andThen_ok] at hr
        obtain ⟨sN, h1, h2⟩ := hr
        rw [andThen_ok] at h2
        obtain ⟨s3, h3, h4⟩ := h2
        have hinv3 : EFInv s3.cfg := efinv_addEdgeS h3 (efinv_congr (by simp) (by simp) h)
        rw [Res.ok.injEq] at h4
        subst h4
        exact hinv3
      case classDef cname body =>
        simp only [run] at hr
        rw [andThen_ok] at hr
        obtain ⟨sN, h1, h2⟩ := hr
        rw [andThen_ok] at h2
        obtain ⟨s3, h3, h4⟩ := h2
        have hinv3 : EFInv s3.cfg := efinv_addEdgeS h3 (efinv_congr (by simp) (by simp) h)
        rw [Res.ok.injEq] at h4
        subst h4
        exact hinv3
      case assign targets value =>
        cases value
        case call fn args kw =>
          simp only [run] at hr
          split at hr
          · exact ih _ _ _ hr (efinv_congr (by simp [lowerArgs_cfg]) (by simp [lowerArgs_cfg]) h)
          · exact efinv_stmtAdvance hr h
        case listComp elt gens =>
          simp only [run] at hr
          rw [andThen_ok] at hr
          obtain ⟨s4, h1, h2⟩ := hr
          have hinv4 : EFInv s4.cfg := efinv_addEdgeS h1 (efinv_congr (by simp) (by simp) h)
          rw [andThen_ok] at h2
          obtain ⟨s5, h3, h4⟩ := h2
          have hinv5 : EFInv s5.cfg := ih _ _ _ h3 hinv4
          split at h4
          · exact absurd h4 (by simp)
          · rw [andThen_ok] at h4
            obtain ⟨s8, h5, h6⟩ := h4
            have hinv8 : EFInv s8.cfg :=
              efinv_addEdgeS h5 (efinv_congr (by simp) (by simp) hinv5)
            rw [Res.ok.injEq] at h6
            subst h6
            exact hinv8
        case setComp elt gens =>
          simp only [run] at hr
          rw [andThen_ok] at hr
          obtain ⟨s4, h1, h2⟩ := hr
          have hinv4 : EFInv s4.cfg := efinv_addEdgeS h1 (efinv_congr (by simp) (by simp) h)
          rw [andThen_ok] at h2
          obtain ⟨s5, h3, h4⟩ := h2
          have hinv5 : EFInv s5.cfg := ih _ _ _ h3 hinv4
          split at h4
          · exact absurd h4 (by simp)
          · rw [andThen_ok] at h4
            obtain ⟨s8, h5, h6⟩ := h4
            have hinv8 : EFInv s8.cfg :=
              efinv_addEdgeS h5 (efinv_congr (by simp) (by simp) hinv5)
            rw [Res.ok.injEq] at h6
            subst h6
            exact hinv8
        case dictComp key dval gens =>
          simp only [run] at hr
          rw [andThen_ok] at hr
          obtain ⟨s4, h1, h2⟩ := hr
          have hinv4 : EFInv s4.cfg := efinv_addEdgeS h1 (efinv_congr (by simp) (by simp) h)
          rw [andThen_ok] at h2
          obtain ⟨s5, h3, h4⟩ := h2
          have hinv5 : EFInv s5.cfg := ih _ _ _ h3 hinv4
          split at h4
          · exact absurd h4 (by simp)
          · rw [andThen_ok] at h4
            obtain ⟨s8, h5, h6⟩ := h4
            have hinv8 : EFInv s8.cfg :=
              efinv_addEdgeS h5 (efinv_congr (by simp) (by simp) hinv5)
            rw [Res.ok.injEq] at h6
            subst h6
            exact hinv8
        case genExp elt gens =>
          simp only [run] at hr
          rw [andThen_ok] at hr
          obtain ⟨s3, h1, h2⟩ := hr
          have hinv3 : EFInv s3.cfg := ih _ _ _ h1 h
          split at h2
          · exact absurd h2 (by simp)
          · exact ih _ _ _ h2 hinv3
        all_goals
          simp only [run] at hr
          exact efinv_stmtAdvance hr h
      case call fn args kw =>
        simp only [run] at hr
        split at hr
        · exact ih _ _ _ hr (efinv_congr (by simp [lowerArgs_cfg]) (by simp [lowerArgs_cfg]) h)
        · exact efinv_stmtAdvance hr h
      case ifS test body orelse =>
        cases orelse with
        | nil =>
          simp only [run] at hr
          rw [andThen_ok] at hr
          obtain ⟨s4, h1, h2⟩ := hr
          have hinv4 : EFInv s4.cfg := efinv_addEdgeS h1 (efinv_congr (by simp) (by simp) h)
          rw [andThen_ok] at h2
          obtain ⟨s7, h3, h4⟩ := h2
          have hinv7 : EFInv s7.cfg := efinv_addEdgeS h3 hinv4
          rw [andThen_ok] at h4
          obtain ⟨s8, h5, h6⟩ := h4
          have hinv8 : EFInv s8.cfg := ih _ _ _ h5 hinv7
          rw [Res.ok.injEq] at h6
          subst h6
          exact hinv8
        | cons o1 orest =>
          simp only [run] at hr
          rw [andThen_ok] at hr
          obtain ⟨s4, h1, h2⟩ := hr
          have hinv4 : EFInv s4.cfg := efinv_addEdgeS h1 (efinv_congr (by simp) (by simp) h)
          rw [andThen_ok] at h2
          obtain ⟨s7, h3, h4⟩ := h2
          rw [andThen_ok] at h3
          obtain ⟨s6, h3a, h3b⟩ := h3
          have hinv6 : EFInv s6.cfg := efinv_addEdgeS h3a (efinv_congr (by simp) (by simp) hinv4)
          have hinv7 : EFInv s7.cfg := ih _ _ _ h3b hinv6
          rw [andThen_ok] at h4
          obtain ⟨s8, h5, h6⟩ := h4
          have hinv8 : EFInv s8.cfg := ih _ _ _ h5 hinv7
          rw [Res.ok.injEq] at h6
          subst h6
          exact hinv8
      case whileS test body orelse =>
        cases orelse with
        | nil =>
          simp only [run] at hr
          rw [andThen_ok] at hr
          obtain ⟨sg, h1, h2⟩ := hr
          have hinvg : EFInv sg.cfg := efinv_addLoopBlockAndMove h1 h
          rw [andThen_ok] at h2
          obtain ⟨s4, h3, h4⟩ := h2
          have hinv4 : EFInv s4.cfg := efinv_addEdgeS h3 (efinv_congr (by simp) (by simp) hinvg)
          rw [andThen_ok] at h4
          obtain ⟨s10, h5, h6⟩ := h4
          rw [andThen_ok] at h5
          obtain ⟨s7, h5a, h5b⟩ := h5
          have hinv7 : EFInv s7.cfg := efinv_addEdgeS h5a (efinv_congr (by simp) (by simp) hinv4)
          have hinv10 : EFInv s10.cfg := ih _ _ _ h5b hinv7
          rw [show s'.cfg = _ from popLoops_cfg h6]
          exact hinv10
        | cons o1 orest =>
          simp only [run] at hr
          rw [andThen_ok] at hr
          obtain ⟨sg, h1, h2⟩ := hr
          have hinvg : EFInv sg.cfg := efinv_addLoopBlockAndMove h1 h
          rw [andThen_ok] at h2
          obtain ⟨s4, h3, h4⟩ := h2
          have hinv4 : EFInv s4.cfg := efinv_addEdgeS h3 (efinv_congr (by simp) (by simp) hinvg)
          rw [andThen_ok] at h4
          obtain ⟨s10, h5, h6⟩ := h4
          rw [andThen_ok] at h5
          obtain ⟨s7, h5a, h5b⟩ := h5
          have hinv7 : EFInv s7.cfg := efinv_addEdgeS h5a (efinv_congr (by simp) (by simp) hinv4)
          rw [andThen_ok] at h5b
          obtain ⟨s8, h5c, h5d⟩ := h5b
          have hinv8 : EFInv s8.cfg := efinv_addEdgeS h5c (efinv_congr (by simp) (by simp) hinv7)
          rw [andThen_ok] at h5d
          obtain ⟨s9, h5e, h5f⟩ := h5d
          have hinv9 : EFInv s9.cfg := ih _ _ _ h5e hinv8
          have hinv10 : EFInv s10.cfg := ih _ _ _ h5f hinv9
          rw [show s'.cfg = _ from popLoops_cfg h6]
          exact hinv10
      case forS target iter body orelse =>
        cases iter
        case listComp e g =>
          simp only [run] at hr
          exact ih _ _ _ hr h
        case setComp e g =>
          simp only [run] at hr
          exact ih _ _ _ hr h
        case dictComp k dv g =>
          simp only [run] at hr
          exact ih _ _ _ hr h
        all_goals
          cases orelse with
          | nil =>
            simp only [run] at hr
            rw [andThen_ok] at hr
            obtain ⟨sg, h1, h2⟩ := hr
            have hinvg : EFInv sg.cfg := efinv_addLoopBlockAndMove h1 h
            rw [andThen_ok] at h2
            obtain ⟨s4, h3, h4⟩ := h2
            have hinv4 : EFInv s4.cfg :=
              efinv_addEdgeS h3 (efinv_congr (by simp) (by simp) hinvg)
            rw [andThen_ok] at h4
            obtain ⟨s6, h5, h6⟩ := h4
            have hinv6 : EFInv s6.cfg :=
              efinv_addEdgeS h5 (efinv_congr (by simp) (by simp) hinv4)
            rw [andThen_ok] at h6
            obtain ⟨s10, h7, h8⟩ := h6
            have hinv10 : EFInv s10.cfg := ih _ _ _ h7 hinv6
            rw [show s'.cfg = _ from popLoops_cfg h8]
            exact hinv10
          | cons o1 orest =>
            simp only [run] at hr
            rw [andThen_ok] at hr
            obtain ⟨sg, h1, h2⟩ := hr
            have hinvg : EFInv sg.cfg := efinv_addLoopBlockAndMove h1 h
            rw [andThen_ok] at h2
            obtain ⟨s4, h3, h4⟩ := h2
            have hinv4 : EFInv s4.cfg :=
              efinv_addEdgeS h3 (efinv_congr (by simp) (by simp) hinvg)
            rw [andThen_ok] at h4
            obtain ⟨s6, h5, h6⟩ := h4
            have hinv6 : EFInv s6.cfg :=
              efinv_addEdgeS h5 (efinv_congr (by simp) (by simp) hinv4)
            rw [andThen_ok] at h6
            obtain ⟨s10, h7, h8⟩ := h6
            rw [andThen_ok] at h7
            obtain ⟨s8, h7a, h7b⟩ := h7
            have hinv8 : EFInv s8.cfg :=
              efinv_addEdgeS h7a (efinv_congr (by simp) (by simp) hinv6)
            rw [andThen_ok] at h7b
            obtain ⟨s9, h7c, h7d⟩ := h7b
            have hinv9 : EFInv s9.cfg := ih _ _ _ h7c hinv8
            have hinv10 : EFInv s10.cfg := ih _ _ _ h7d hinv9
            rw [show s'.cfg = _ from popLoops_cfg h8]
            exact hinv10
      case breakS =>
        simp only [run] at hr
        split at hr
        · exact absurd hr (by simp)
        · exact efinv_addEdgeS hr (efinv_congr (by simp) (by simp) h)
      case continueS =>
        simp only [run] at hr
        split at hr
        · exact absurd hr (by simp)
        · exact efinv_addEdgeS hr (efinv_congr (by simp) (by simp) h)
      case returnS value =>
        simp only [run] at hr
        rw [andThen_ok] at hr
        obtain ⟨s3, h1, h2⟩ := hr
        have hinv3 : EFInv s3.cfg := by
          split at h1
          · rw [andThen_ok] at h1
            obtain ⟨s2, h1a, h1b⟩ := h1
            have hinv2 : EFInv s2.cfg := ih _ _ _ h1a h
            rw [Res.ok.injEq] at h1b
            subst h1b
            exact hinv2
          · rw [Res.ok.injEq] at h1
            subst h1
            exact efinv_congr (by simp) (by simp) h
        rw [Res.ok.injEq] at h2
        subst h2
        exact efinv_congr (by simp) (by simp) hinv3
      case assertS test msg =>
        simp only [run] at hr
        rw [andThen_ok] at hr
        obtain ⟨s4, h1, h2⟩ := hr
        have hinv4 : EFInv s4.cfg := efinv_addEdgeS h1 (efinv_congr (by simp) (by simp) h)
        rw [Res.ok.injEq] at h2
        subst h2
        exact hinv4
      case tryS body handlers orelse finalbody =>
        simp only [run] at hr
        rw [andThen_ok] at hr
        obtain ⟨sg, h1, h2⟩ := hr
        have hinvg : EFInv sg.cfg := efinv_addLoopBlockAndMove h1 h
        rw [andThen_ok] at h2
        obtain ⟨s4, h3, h4⟩ := h2
        have hinv4 : EFInv s4.cfg := ih _ _ _ h3 (efinv_congr (by simp) (by simp) hinvg)
        rw [andThen_ok] at h4
        obtain ⟨s6, h5, h6⟩ := h4
        have hinv6 : EFInv s6.cfg := ih _ _ _ h5 hinv4
        rw [andThen_ok] at h6
        obtain ⟨s13, h7, h8⟩ := h6
        have hinv13 : EFInv s13.cfg := by
          cases orelse with
          | nil =>
            rw [Res.ok.injEq] at h7
            subst h7
            exact hinv6
          | cons o1 orest =>
            rw [andThen_ok] at h7
            obtain ⟨s9, h7a, h7b⟩ := h7
            have hinv9 : EFInv s9.cfg :=
              efinv_addEdgeS h7a (efinv_congr (by simp) (by simp) hinv6)
            rw [andThen_ok] at h7b
            obtain ⟨s12, h7c, h7d⟩ := h7b
            have hinv12 : EFInv s12.cfg := ih _ _ _ h7c (efinv_congr (by simp) (by simp) hinv9)
            exact efinv_addEdgeS h7d hinv12
        cases finalbody with
        | nil =>
          exact efinv_addEdgeS h8 (efinv_congr (by simp) (by simp) hinv13)
        | cons f1 frest =>
          rw [andThen_ok] at h8
          obtain ⟨s16, h9, h10⟩ := h8
          have hinv16 : EFInv s16.cfg :=
            efinv_addEdgeS h9 (efinv_congr (by simp) (by simp) hinv13)
          rw [andThen_ok] at h10
          obtain ⟨s18, h11, h12⟩ := h10
          have hinv18 : EFInv s18.cfg := ih _ _ _ h11 (efinv_congr (by simp) (by simp) hinv16)
          rw [Res.ok.injEq] at h12
          subst h12
          exact hinv18
      case exprS v =>
        simp only [run] at hr
        exact ih _ _ _ hr h
      case listComp elt gens =>
        simp only [run] at hr
        split at hr
        · exact absurd hr (by simp)
        · exact ih _ _ _ hr h
      case setComp elt gens =>
        simp only [run] at hr
        split at hr
        · exact absurd hr (by simp)
        · exact ih _ _ _ hr h
      case dictComp key dval gens =>
        simp only [run] at hr
        split at hr
        · exact absurd hr (by simp)
        · exact ih _ _ _ hr h
      case genExp elt gens =>
        simp only [run] at hr
        split at hr
        · exact absurd hr (by simp)
        · split at hr
          · exact absurd hr (by simp)
          · exact ih _ _ _ hr h
      case ifExpE t b o =>
        simp only [run] at hr
        split at hr
        · exact ih _ _ _ hr h
        · rw [Res.ok.injEq] at hr
          subst hr
          exact h
      case lambdaE argNames body =>
        simp only [run] at hr
        exact absurd hr (by simp)
      all_goals
        simp only [run] at hr
        first
        | exact ih _ _ _ hr h
        | exact efinv_stmtAdvance hr h

end FlowsPy

namespace CfgPy

/-- The CFG record of `cfg.py` (`class CFG`): name, start block id, the
`func_calls` and `classes` maps, the block map, the edge map and the
`flows` set.  Unlike `flows.py`, this CFG has no final-blocks list (the
source comments it out).  The graphviz handle is omitted. -/
inductive CFGc : Type where
  | mk (nm : String) (start : Nat)
      (funcCalls : List (String × (List (String × Option PyAst)) × CFGc))
      (classes : List (String × CFGc))
      (blocks : List (Nat × Blk))
      (edges : List ((Nat × Nat) × Option PyAst))
      (flows : List (Nat × Nat))

def CFGc.nm : CFGc → String
  | .mk v _ _ _ _ _ _ => v

def CFGc.start : CFGc → Nat
  | .mk _ v _ _ _ _ _ => v

def CFGc.funcCalls : CFGc → List (String × (List (String × Option PyAst)) × CFGc)
  | .mk _ _ v _ _ _ _ => v

def CFGc.classes : CFGc → List (String × CFGc)
  | .mk _ _ _ v _ _ _ => v

def CFGc.blocks : CFGc → List (Nat × Blk)
  | .mk _ _ _ _ v _ _ => v

def CFGc.edges : CFGc → List ((Nat × Nat) × Option PyAst)
  | .mk _ _ _ _ _ v _ => v

def CFGc.flows : CFGc → List (Nat × Nat)
  | .mk _ _ _ _ _ _ v => v

def CFGc.setStart (c : CFGc) (v : Nat) : CFGc :=
  match c with
  | .mk n _ fc cc b e fl => .mk n v fc cc b e fl

def CFGc.setFuncCalls (c : CFGc)
    (v : List (String × (List (String × Option PyAst)) × CFGc)) : CFGc :=
  match c with
  | .mk n s _ cc b e fl => .mk n s v cc b e fl

def CFGc.setBlocks (c : CFGc) (v : List (Nat × Blk)) : CFGc :=
  match c with
  | .mk n s fc cc _ e fl => .mk n s fc cc v e fl

def CFGc.setEdges (c : CFGc) (v : List ((Nat × Nat) × Option PyAst)) : CFGc :=
  match c with
  | .mk n s fc cc b _ fl => .mk n s fc cc b v fl

def CFGc.setFlows (c : CFGc) (v : List (Nat × Nat)) : CFGc :=
  match c with
  | .mk n s fc cc b e _ => .mk n s fc cc b e v

def CFGc.fresh (nm : String) : CFGc := .mk nm 0 [] [] [] [] []

/-- The visitor state of `cfg.py`'s `CFGVisitor`: the CFG under
construction, the cursor, the global id counter, the two loop stacks and
the shared `visited` set of `remove_empty_blocks`.  The lazily created
register attributes (`listCompReg`, `lambdaReg`, ...) are not modelled;
the paths that would read them are outside the modelled subset. -/
structure St2 where
  cfg : CFGc
  curr : Nat
  counter : Nat
  loopStack : List Nat
  loopGuardStack : List Nat
  visited : List Nat

/-- Result of a `cfg.py` interpreter step. -/
inductive Res2 : Type where
  | ok (s : St2)
  | err (e : BuildErr)
  | spin

def Res2.andThen (r : Res2) (f : St2 → Res2) : Res2 :=
  match r with
  | .ok s => f s
  | .err e => .err e
  | .spin => .spin

def isCall2 : PyAst → Bool
  | .call _ _ _ => true
  | _ => false

/-- `new_block` of `cfg.py`. -/
def newBlockP2 (s : St2) : Nat × St2 :=
  let bid := s.counter + 1
  (bid, { s with counter := bid,
                 cfg := s.cfg.setBlocks (blkInsert bid (Blk.empty bid) s.cfg.blocks) })

/-- `new_func_block(bid)`: `self.cfg.blocks[bid] = FuncBlock(bid)` — the
existing block object is REPLACED by a fresh one with empty statement,
predecessor and successor lists (its `name` / `paras` display fields are
not modelled). -/
def newFuncBlockP (bid : Nat) (s : St2) : St2 :=
  { s with cfg := s.cfg.setBlocks (blkInsert bid (Blk.empty bid) s.cfg.blocks) }

/-- `new_call_block(bid)`: replace the block like `new_func_block` does;
`CallBlock.__init__` additionally allocates a fresh exit id from the
global counter (`self.exit = BlockId.gen_block_id()`), modelled as the
counter bump (the `args` / `call` / `exit` display fields are not
modelled). -/
def newCallBlockP (bid : Nat) (s : St2) : St2 :=
  { s with counter := s.counter + 1,
           cfg := s.cfg.setBlocks (blkInsert bid (Blk.empty bid) s.cfg.blocks) }

def modBlk2 (bid : Nat) (f : Blk → Blk) (s : St2) : St2 :=
  match blkFind bid s.cfg.blocks with
  | none => s
  | some b => { s with cfg := s.cfg.setBlocks (blkInsert bid (f b) s.cfg.blocks) }

/-- `add_stmt` of `cfg.py`. -/
def addStmtP2 (bid : Nat) (stmt : PyAst) (s : St2) : St2 :=
  modBlk2 bid (fun b => { b with stmts := b.stmts ++ [stmt] }) s

/-- `add_edge` of `cfg.py` (lines 214-220), identical to `flows.py`. -/
def addEdgeS2 (frm toId : Nat) (cond : Option PyAst) (s : St2) : Res2 :=
  match blkFind frm s.cfg.blocks with
  | none => .err .keyErr
  | some bf =>
    let c1 := s.cfg.setBlocks (blkInsert frm { bf with nxt := bf.nxt ++ [toId] } s.cfg.blocks)
    match blkFind toId c1.blocks with
    | none => .err .keyErr
    | some bt =>
      let c2 := c1.setBlocks (blkInsert toId { bt with prev := bt.prev ++ [frm] } c1.blocks)
      let c3 := c2.setEdges (alistInsert (frm, toId) cond c2.edges)
      .ok { s with cfg := c3.setFlows (setAdd (frm, toId) c3.flows) }

/-- The common `append; new block; link; advance` tail. -/
def stmtAdvance2 (node : PyAst) (s : St2) : Res2 :=
  let s1 := addStmtP2 s.curr node s
  let p := newBlockP2 s1
  (addEdgeS2 p.2.curr p.1 none p.2).andThen fun s3 => .ok { s3 with curr := p.1 }

/-- The edge-dropping tail of `cfg.py`'s `remove_empty_blocks`; unlike
`flows.py`, the final `flows.remove` is NOT guarded by a membership test
(`self.cfg.flows.remove(...)`), so a missing pair raises `KeyError`. -/
def eraseStep2 (k : Nat × Nat) (bid : Nat) (f : Blk → Blk) (s : St2) : Res2 :=
  let s3 := { s with cfg := s.cfg.setEdges (alistErase k s.cfg.edges) }
  let s4 := modBlk2 bid f s3
  if k ∈ s4.cfg.flows then
    .ok { s4 with cfg := s4.cfg.setFlows (setDel k s4.cfg.flows) }
  else .err .keyErr

/-- The inner loop of `cfg.py`'s `remove_empty_blocks` (lines 272-286):
no redundant `flows.add` and an unguarded `flows.remove`. -/
def remInner2 (prevBid blkBid : Nat) : List Nat → St2 → Res2
  | [], s => .ok s
  | nextBid :: rest, s =>
    match blkFind nextBid s.cfg.blocks with
    | none => .err .keyErr
    | some _ =>
      (addEdgeS2 prevBid nextBid
        (FlowsPy.addCondition (edgeGet (prevBid, blkBid) s.cfg.edges)
          (edgeGet (blkBid, nextBid) s.cfg.edges)) s).andThen fun s1 =>
        (eraseStep2 (blkBid, nextBid) nextBid
          (fun b => { b with prev := idDel blkBid b.prev }) s1).andThen fun s2 =>
          remInner2 prevBid blkBid rest s2

/-- The outer loop of `cfg.py`'s `remove_empty_blocks` (lines 272-289). -/
def remPrev2 (blkBid : Nat) (nxts : List Nat) : List Nat → St2 → Res2
  | [], s => .ok s
  | prevBid :: rest, s =>
    match blkFind prevBid s.cfg.blocks with
    | none => .err .keyErr
    | some _ =>
      (remInner2 prevBid blkBid nxts s).andThen fun s1 =>
        (eraseStep2 (prevBid, blkBid) prevBid
          (fun b => { b with nxt := idDel blkBid b.nxt }) s1).andThen fun s2 =>
          remPrev2 blkBid nxts rest s2

/-- Jobs for the `cfg.py` interpreter. -/
inductive Job2 : Type where
  | vis (node : PyAst)
  | seq (nodes : List PyAst)
  | bld (nm : String) (tree : PyAst)
  | rem (bid : Nat)
  | remSeq (bids : List Nat)

/-- The branch bodies of `cfg.py`'s `visit_Expr` before the generic
descent.  The third branch test is literally
`elif type(node.value == ast.Call):` in the source — the type of a
boolean, which is always truthy — so it is embedded as `true` and the
final `else` (which would append the bare `Expr` statement) is dead
code.  The first two branches set the unmodelled `listCompReg` /
`lambdaReg` registers. -/
def visitExprBranch (v : PyAst) (s : St2) : Res2 :=
  match v with
  | .listComp elt gens =>
    if isCall2 elt then .err .notModelled
    else if true then .ok s else .ok (addStmtP2 s.curr (.exprS (.listComp elt gens)) s)
  | .lambdaE _ _ => .err .notModelled
  | other =>
    if true then .ok s else .ok (addStmtP2 s.curr (.exprS other) s)

/-- The fueled interpreter for the modelled subset of `cfg.py`'s
`CFGVisitor`.  Node kinds whose `cfg.py` handlers depend on the
unmodelled register attributes, or that the claims never exercise, map
to the `notModelled` error. -/
def run : Nat → Job2 → St2 → Res2
  | 0, _, _ => .spin
  | fuel + 1, job, s =>
    match job with
    | .seq [] => .ok s
    | .seq (x :: xs) => (run fuel (.vis x) s).andThen (run fuel (.seq xs))
    | .bld nm tree =>
      let s0 : St2 := { s with cfg := CFGc.fresh nm, loopStack := [], loopGuardStack := [] }
      let p := newBlockP2 s0
      let s2 := { p.2 with cfg := p.2.cfg.setStart p.1, curr := p.1 }
      (run fuel (.vis tree) s2).andThen fun s3 =>
        run fuel (.rem s3.cfg.start) s3
    | .remSeq [] => .ok s
    | .remSeq (b :: bs) => (run fuel (.rem b) s).andThen (run fuel (.remSeq bs))
    | .rem bid =>
      if bid ∈ s.visited then .ok s
      else
        let sv := { s with visited := bid :: s.visited }
        match blkFind bid sv.cfg.blocks with
        | none => .err .keyErr
        | some b =>
          if b.stmts.isEmpty then
            (remPrev2 bid b.nxt b.prev sv).andThen fun s1 =>
              let s2 := modBlk2 bid (fun x => { x with prev := [] }) s1
              (run fuel (.remSeq b.nxt) s2).andThen fun s3 =>
                .ok (modBlk2 bid (fun x => { x with nxt := [] }) s3)
          else
            run fuel (.remSeq b.nxt) sv
    | .vis node =>
      match node with
      | .module body =>
        (stmtAdvance2 (.module body) s).andThen fun s1 =>
          run fuel (.seq body) s1
      | .importS nm => stmtAdvance2 (.importS nm) s
      | .functionDef fname argNames defaults body =>
        let s1 := newFuncBlockP s.curr s
        let s2 := addStmtP2 s1.curr (.functionDef fname argNames defaults body) s1
        (run fuel (.bld fname (.module body)) s2).andThen fun sN =>
          let s3 :=
            { s2 with counter := sN.counter, visited := sN.visited,
                      cfg := s2.cfg.setFuncCalls
                        (strInsert fname (FlowsPy.buildArgList argNames defaults, sN.cfg)
                          s2.cfg.funcCalls) }
          let p := newBlockP2 s3
          (addEdgeS2 p.2.curr p.1 none p.2).andThen fun s4 => .ok { s4 with curr := p.1 }
      | .passS => stmtAdvance2 .passS s
      | .exprS v =>
        (visitExprBranch v s).andThen fun s1 =>
          run fuel (.seq [v]) s1
      | .call fn args kw =>
        match fn with
        | .lambdaE _ _ => .err .notModelled
        | _ =>
          let s1 := newCallBlockP s.curr s
          let s2 := addStmtP2 s1.curr (.call fn args kw) s1
          let p := newBlockP2 s2
          (addEdgeS2 p.2.curr p.1 none p.2).andThen fun s3 => .ok { s3 with curr := p.1 }
      | .assertS t m =>
        let s1 := addStmtP2 s.curr (.assertS t m) s
        let p := newBlockP2 s1
        (addEdgeS2 p.2.curr p.1 (some t) p.2).andThen fun s3 =>
          run fuel (.seq ([t] ++ m.toList)) { s3 with curr := p.1 }
      | .name _ => .ok s
      | .num _ => .ok s
      | _ => .err .notModelled

/-- The initial process state for the `cfg.py` builder. -/
def initSt2 : St2 :=
  { cfg := CFGc.fresh "", curr := 0, counter := 0,
    loopStack := [], loopGuardStack := [], visited := [] }

/-- `CFGVisitor().build(name, tree)` of `cfg.py`, from a fresh process. -/
def build (fuel : Nat) (nm : String) (tree : PyAst) : Res2 :=
  run fuel (.bld nm tree) initSt2

/-- Extract the final state of a successful `cfg.py` run. -/
def resSt2 (r : Res2) : St2 :=
  match r with
  | .ok s => s
  | _ => initSt2

def resOk2 (r : Res2) : Bool :=
  match r with
  | .ok _ => true
  | _ => false

end CfgPy

@[simp] lemma setBlocks_finalBlocks (c : CFGd) (v) :
    (c.setBlocks v).finalBlocks = c.finalBlocks := by cases c; rfl

@[simp] lemma setEdges_finalBlocks (c : CFGd) (v) :
    (c.setEdges v).finalBlocks = c.finalBlocks := by cases c; rfl

@[simp] lemma setFlows_finalBlocks (c : CFGd) (v) :
    (c.setFlows v).finalBlocks = c.finalBlocks := by cases c; rfl

@[simp] lemma setFinalBlocks_finalBlocks (c : CFGd) (v) :
    (c.setFinalBlocks v).finalBlocks = v := by cases c; rfl

@[simp] lemma setBlocks_blocks (c : CFGd) (v) : (c.setBlocks v).blocks = v := by
  cases c; rfl

@[simp] lemma setEdges_blocks (c : CFGd) (v) : (c.setEdges v).blocks = c.blocks := by
  cases c; rfl

@[simp] lemma setFlows_blocks (c : CFGd) (v) : (c.setFlows v).blocks = c.blocks := by
  cases c; rfl

@[simp] lemma setFinalBlocks_blocks (c : CFGd) (v) :
    (c.setFinalBlocks v).blocks = c.blocks := by cases c; rfl

@[simp] lemma setStart_blocks (c : CFGd) (v) : (c.setStart v).blocks = c.blocks := by
  cases c; rfl

@[simp] lemma setFuncCfgs_blocks (c : CFGd) (v) : (c.setFuncCfgs v).blocks = c.blocks := by
  cases c; rfl

@[simp] lemma setClassCfgs_blocks (c : CFGd) (v) : (c.setClassCfgs v).blocks = c.blocks := by
  cases c; rfl

lemma alistFind_insert {β : Type} (k : Nat × Nat) (v : β) (l : List ((Nat × Nat) × β)) :
    alistFind k (alistInsert k v l) = some v := by
  simp [alistInsert, alistFind]

lemma blkFind_insert_self (bid : Nat) (b : Blk) (l : List (Nat × Blk)) :
    blkFind bid (blkInsert bid b l) = some b := by
  induction l with
  | nil => simp [blkInsert, blkFind]
  | cons hd tl ih =>
    rcases hd with ⟨k, v⟩
    simp only [blkInsert]
    by_cases h : k = bid
    · rw [if_pos h]
      simp [blkFind]
    · rw [if_neg h]
      simp only [blkFind, h, if_false]
      exact ih

lemma blkFind_insert_ne {k bid : Nat} (h : k ≠ bid) (b : Blk) (l : List (Nat × Blk)) :
    blkFind k (blkInsert bid b l) = blkFind k l := by
  induction l with
  | nil => simp [blkInsert, blkFind, Ne.symm h]
  | cons hd tl ih =>
    rcases hd with ⟨k2, v⟩
    simp only [blkInsert]
    by_cases h2 : k2 = bid
    · rw [if_pos h2]
      subst h2
      simp [blkFind, Ne.symm h]
    · rw [if_neg h2]
      simp only [blkFind]
      by_cases h3 : k2 = k
      · rw [if_pos h3, if_pos h3]
      · rw [if_neg h3, if_neg h3]
        exact ih

namespace FlowsPy

@[simp] lemma modBlk_curr (bid : Nat) (f : Blk → Blk) (s : St) :
    (modBlk bid f s).curr = s.curr := by
  unfold modBlk
  cases blkFind bid s.cfg.blocks <;> simp

@[simp] lemma modBlk_counter (bid : Nat) (f : Blk → Blk) (s : St) :
    (modBlk bid f s).counter = s.counter := by
  unfold modBlk
  cases blkFind bid s.cfg.blocks <;> simp

@[simp] lemma modBlk_loopGuardStack (bid : Nat) (f : Blk → Blk) (s : St) :
    (modBlk bid f s).loopGuardStack = s.loopGuardStack := by
  unfold modBlk
  cases blkFind bid s.cfg.blocks <;> simp

@[simp] lemma modBlk_cfg_finalBlocks (bid : Nat) (f : Blk → Blk) (s : St) :
    (modBlk bid f s).cfg.finalBlocks = s.cfg.finalBlocks := by
  unfold modBlk
  cases blkFind bid s.cfg.blocks <;> simp

@[simp] lemma addStmtP_curr (bid : Nat) (st : PyAst) (s : St) :
    (addStmtP bid st s).curr = s.curr := by
  unfold addStmtP
  simp

@[simp] lemma addStmtP_counter (bid : Nat) (st : PyAst) (s : St) :
    (addStmtP bid st s).counter = s.counter := by
  unfold addStmtP
  simp

@[simp] lemma addStmtP_loopGuardStack (bid : Nat) (st : PyAst) (s : St) :
    (addStmtP bid st s).loopGuardStack = s.loopGuardStack := by
  unfold addStmtP
  simp

@[simp] lemma addStmtP_cfg_finalBlocks (bid : Nat) (st : PyAst) (s : St) :
    (addStmtP bid st s).cfg.finalBlocks = s.cfg.finalBlocks := by
  unfold addStmtP
  simp

lemma addStmtP_blkFind_self (bid : Nat) (st : PyAst) (s : St) :
    blkFind bid (addStmtP bid st s).cfg.blocks =
      (blkFind bid s.cfg.blocks).map (fun b => { b with stmts := b.stmts ++ [st] }) := by
  unfold addStmtP modBlk
  cases hfind : blkFind bid s.cfg.blocks with
  | none => simp [hfind]
  | some b =>
    simp only [Option.map_some]
    simp only [setBlocks_blocks]
    exact blkFind_insert_self _ _ _

/-- The effect of a successful `add_edge` on everything the claims read:
cursor, counter, final blocks and the edge map. -/
lemma addEdgeS_spec {frm toId : Nat} {cond : Option PyAst} {s s' : St}
    (hr : addEdgeS frm toId cond s = .ok s') :
    s'.curr = s.curr ∧ s'.counter = s.counter ∧
    s'.cfg.finalBlocks = s.cfg.finalBlocks ∧
    s'.cfg.edges = alistInsert (frm, toId) cond s.cfg.edges := by
  simp only [addEdgeS] at hr
  split at hr
  · exact absurd hr (by simp)
  · split at hr
    · exact absurd hr (by simp)
    · rw [Res.ok.injEq] at hr
      subst hr
      refine ⟨rfl, rfl, by simp, by simp⟩

/-- The effect of a successful `add_edge` on the statement lists: no
block's statements change. -/
lemma addEdgeS_stmts {frm toId : Nat} {cond : Option PyAst} {s s' : St}
    (hr : addEdgeS frm toId cond s = .ok s') (bid : Nat) :
    (blkFind bid s'.cfg.blocks).map Blk.stmts =
      (blkFind bid s.cfg.blocks).map Blk.stmts := by
  simp only [addEdgeS] at hr
  split at hr
  · exact absurd hr (by simp)
  next bf hbf =>
    split at hr
    · exact absurd hr (by simp)
    next bt hbt =>
      rw [Res.ok.injEq] at hr
      subst hr
      simp only [setBlocks_blocks] at hbt
      simp only [setFlows_blocks, setEdges_blocks, setBlocks_blocks]
      by_cases h1 : bid = toId
      · subst h1
        rw [blkFind_insert_self]
        by_cases h2 : bid = frm
        · subst h2
          rw [blkFind_insert_self] at hbt
          rw [Option.some.injEq] at hbt
          subst hbt
          simp [hbf]
        · rw [blkFind_insert_ne h2] at hbt
          rw [hbt]
          rfl
      · rw [blkFind_insert_ne h1]
        by_cases h2 : bid = frm
        · subst h2
          rw [blkFind_insert_self]
          simp [hbf]
        · rw [blkFind_insert_ne h2]

end FlowsPy

namespace CfgPy

@[simp] lemma setEdges_edges2 (c : CFGc) (v) : (c.setEdges v).edges = v := by
  cases c; rfl

@[simp] lemma setEdges_flows2 (c : CFGc) (v) : (c.setEdges v).flows = c.flows := by
  cases c; rfl

@[simp] lemma setEdges_blocks2 (c : CFGc) (v) : (c.setEdges v).blocks = c.blocks := by
  cases c; rfl

@[simp] lemma setFlows_flows2 (c : CFGc) (v) : (c.setFlows v).flows = v := by
  cases c; rfl

@[simp] lemma setFlows_edges2 (c : CFGc) (v) : (c.setFlows v).edges = c.edges := by
  cases c; rfl

@[simp] lemma setFlows_blocks2 (c : CFGc) (v) : (c.setFlows v).blocks = c.blocks := by
  cases c; rfl

@[simp] lemma setBlocks_edges2 (c : CFGc) (v) : (c.setBlocks v).edges = c.edges := by
  cases c; rfl

@[simp] lemma setBlocks_flows2 (c : CFGc) (v) : (c.setBlocks v).flows = c.flows := by
  cases c; rfl

@[simp] lemma setBlocks_blocks2 (c : CFGc) (v) : (c.setBlocks v).blocks = v := by
  cases c; rfl

@[simp] lemma setStart_edges2 (c : CFGc) (v) : (c.setStart v).edges = c.edges := by
  cases c; rfl

@[simp] lemma setStart_flows2 (c : CFGc) (v) : (c.setStart v).flows = c.flows := by
  cases c; rfl

@[simp] lemma setFuncCalls_edges2 (c : CFGc) (v) : (c.setFuncCalls v).edges = c.edges := by
  cases c; rfl

@[simp] lemma setFuncCalls_flows2 (c : CFGc) (v) : (c.setFuncCalls v).flows = c.flows := by
  cases c; rfl

/-- The key set of a `cfg.py` edge map. -/
def keysOf2 (c : CFGc) : List (Nat × Nat) := c.edges.map Prod.fst

/-- The claim I4 relation and bookkeeping invariant for the `cfg.py`
CFG, as for `flows.py`. -/
def EFInv2 (c : CFGc) : Prop :=
  (∀ p : Nat × Nat, p ∈ c.flows ↔ p ∈ keysOf2 c) ∧ (keysOf2 c).Nodup ∧ c.flows.Nodup

lemma efinv2_congr {c c' : CFGc} (he : c'.edges = c.edges)
    (hf : c'.flows = c.flows) : EFInv2 c → EFInv2 c' := by
  intro ⟨hs, hk, hn⟩
  have hkeys : keysOf2 c' = keysOf2 c := by simp only [keysOf2, he]
  refine ⟨fun p => ?_, ?_, ?_⟩
  · rw [hkeys, hf]
    exact hs p
  · rw [hkeys]
    exact hk
  · rw [hf]
    exact hn

lemma efinv2_fresh (nm : String) : EFInv2 (CFGc.fresh nm) := by
  refine ⟨fun p => ?_, ?_, ?_⟩ <;>
    simp [CFGc.fresh, keysOf2, CFGc.edges, CFGc.flows]

lemma andThen_ok2 {r : Res2} {f : St2 → Res2} {s' : St2} :
    r.andThen f = .ok s' ↔ ∃ s1, r = .ok s1 ∧ f s1 = .ok s' := by
  cases r <;> simp [Res2.andThen]

@[simp] lemma modBlk2_cfg_edges (bid : Nat) (f : Blk → Blk) (s : St2) :
    (modBlk2 bid f s).cfg.edges = s.cfg.edges := by
  unfold modBlk2
  cases blkFind bid s.cfg.blocks <;> simp

@[simp] lemma modBlk2_cfg_flows (bid : Nat) (f : Blk → Blk) (s : St2) :
    (modBlk2 bid f s).cfg.flows = s.cfg.flows := by
  unfold modBlk2
  cases blkFind bid s.cfg.blocks <;> simp

@[simp] lemma addStmtP2_cfg_edges (bid : Nat) (st : PyAst) (s : St2) :
    (addStmtP2 bid st s).cfg.edges = s.cfg.edges := by
  unfold addStmtP2
  simp

@[simp] lemma addStmtP2_cfg_flows (bid : Nat) (st : PyAst) (s : St2) :
    (addStmtP2 bid st s).cfg.flows = s.cfg.flows := by
  unfold addStmtP2
  simp

@[simp] lemma newBlockP2_cfg_edges (s : St2) :
    ((newBlockP2 s).2).cfg.edges = s.cfg.edges := by
  unfold newBlockP2
  simp

@[simp] lemma newBlockP2_cfg_flows (s : St2) :
    ((newBlockP2 s).2).cfg.flows = s.cfg.flows := by
  unfold newBlockP2
  simp

lemma efinv2_pair_insert {c : CFGc} {k : Nat × Nat} {v : Option PyAst}
    (h : EFInv2 c) :
    EFInv2 ((c.setEdges (alistInsert k v c.edges)).setFlows (setAdd k c.flows)) := by
  obtain ⟨hs, hk, hn⟩ := h
  refine ⟨fun p => ?_, ?_, ?_⟩
  · simp only [keysOf2, setFlows_flows2, setFlows_edges2, setEdges_edges2]
    rw [mem_setAdd, mem_keys_alistInsert]
    exact or_congr Iff.rfl (hs p)
  · simp only [keysOf2, setFlows_edges2, setEdges_edges2]
    exact nodup_keys_alistInsert hk
  · simp only [setFlows_flows2]
    exact nodup_setAdd hn

lemma efinv2_addEdgeS {frm toId : Nat} {cond : Option PyAst} {s s' : St2}
    (hr : addEdgeS2 frm toId cond s = .ok s') (h : EFInv2 s.cfg) : EFInv2 s'.cfg := by
  simp only [addEdgeS2] at hr
  split at hr
  · exact absurd hr (by simp)
  · split at hr
    · exact absurd hr (by simp)
    · rw [Res2.ok.injEq] at hr
      subst hr
      simp only [setEdges_flows2]
      exact efinv2_pair_insert (efinv2_congr (by simp) (by simp) h)

/-- The effect of a successful `cfg.py` `add_edge` on the cursor, the
counter and the edge map. -/
lemma addEdgeS2_spec {frm toId : Nat} {cond : Option PyAst} {s s' : St2}
    (hr : addEdgeS2 frm toId cond s = .ok s') :
    s'.curr = s.curr ∧ s'.counter = s.counter ∧
    s'.cfg.edges = alistInsert (frm, toId) cond s.cfg.edges := by
  simp only [addEdgeS2] at hr
  split at hr
  · exact absurd hr (by simp)
  · split at hr
    · exact absurd hr (by simp)
    · rw [Res2.ok.injEq] at hr
      subst hr
      exact ⟨rfl, rfl, by simp⟩

lemma efinv2_stmtAdvance {node : PyAst} {s s' : St2}
    (hr : stmtAdvance2 node s = .ok s') (h : EFInv2 s.cfg) : EFInv2 s'.cfg := by
  simp only [stmtAdvance2] at hr
  rw [andThen_ok2] at hr
  obtain ⟨s1, h1, h2⟩ := hr
  rw [Res2.ok.injEq] at h2
  subst h2
  have hres : EFInv2 s1.cfg := efinv2_addEdgeS h1 (efinv2_congr (by simp) (by simp) h)
  exact hres

lemma efinv2_eraseStep {k : Nat × Nat} {bid : Nat} {f : Blk → Blk} {s s' : St2}
    (hr : eraseStep2 k bid f s = .ok s') (h : EFInv2 s.cfg) : EFInv2 s'.cfg := by
  obtain ⟨hs, hk, hn⟩ := h
  simp only [eraseStep2] at hr
  split at hr
  · rw [Res2.ok.injEq] at hr
    subst hr
    rename_i hmem
    simp only [modBlk2_cfg_flows, setEdges_flows2] at hmem
    refine ⟨fun p => ?_, ?_, ?_⟩
    · simp only [keysOf2, setFlows_flows2, setFlows_edges2, modBlk2_cfg_edges,
        modBlk2_cfg_flows, setEdges_edges2, setEdges_flows2]
      by_cases hpk : p = k
      · subst hpk
        constructor
        · intro hmem2
          exact absurd ((mem_setDel hn).mp (by simpa using hmem2)).2 (by simp)
        · intro hmem2
          exact absurd hmem2 (not_mem_keys_alistErase hk)
      · rw [mem_keys_alistErase_of_ne hpk]
        constructor
        · intro hm
          exact (hs p).mp ((mem_setDel hn).mp (by simpa using hm)).1
        · intro hm
          simpa using (mem_setDel hn).mpr ⟨(hs p).mpr hm, hpk⟩
    · simp only [keysOf2, setFlows_edges2, modBlk2_cfg_edges, setEdges_edges2]
      exact nodup_keys_alistErase hk
    · simp only [setFlows_flows2]
      exact nodup_setDel (by simpa using hn)
  · exact absurd hr (by simp)

lemma efinv2_remInner {prevBid blkBid : Nat} : ∀ (nxts : List Nat) (s s' : St2),
    remInner2 prevBid blkBid nxts s = .ok s' → EFInv2 s.cfg → EFInv2 s'.cfg := by
  intro nxts
  induction nxts with
  | nil =>
    intro s s' hr h
    simp only [remInner2] at hr
    rw [Res2.ok.injEq] at hr
    subst hr
    exact h
  | cons nb rest ih =>
    intro s s' hr h
    simp only [remInner2] at hr
    split at hr
    · exact absurd hr (by simp)
    · rw [andThen_ok2] at hr
      obtain ⟨s1, h1, h2⟩ := hr
      rw [andThen_ok2] at h2
      obtain ⟨s2, h3, h4⟩ := h2
      exact ih _ _ h4 (efinv2_eraseStep h3 (efinv2_addEdgeS h1 h))

lemma efinv2_remPrev {blkBid : Nat} {nxts : List Nat} : ∀ (prevs : List Nat) (s s' : St2),
    remPrev2 blkBid nxts prevs s = .ok s' → EFInv2 s.cfg → EFInv2 s'.cfg := by
  intro prevs
  induction prevs with
  | nil =>
    intro s s' hr h
    simp only [remPrev2] at hr
    rw [Res2.ok.injEq] at hr
    subst hr
    exact h
  | cons pb rest ih =>
    intro s s' hr h
    simp only [remPrev2] at hr
    split at hr
    · exact absurd hr (by simp)
    · rw [andThen_ok2] at hr
      obtain ⟨s1, h1, h2⟩ := hr
      rw [andThen_ok2] at h2
      obtain ⟨s2, h3, h4⟩ := h2
      exact ih _ _ h4 (efinv2_eraseStep h3 (efinv2_remInner _ _ _ h1 h))

lemma visitExprBranch_ok_cfg {v : PyAst} {s s1 : St2}
    (hr : visitExprBranch v s = .ok s1) : s1.cfg = s.cfg := by
  unfold visitExprBranch at hr
  split at hr
  · split at hr
    · exact absurd hr (by simp)
    · simp only [if_true] at hr
      rw [Res2.ok.injEq] at hr
      subst hr
      rfl
  · exact absurd hr (by simp)
  · simp only [if_true] at hr
    rw [Res2.ok.injEq] at hr
    subst hr
    rfl

/-- Every successful step of the modelled `cfg.py` interpreter preserves
the edge/flow invariant. -/
lemma efinv2_run : ∀ (fuel : Nat) (job : Job2) (s s' : St2),
    run fuel job s = .ok s' → EFInv2 s.cfg → EFInv2 s'.cfg := by
  intro fuel
  induction fuel with
  | zero =>
    intro job s s' hr _
    simp [run] at hr
  | succ n ih =>
    intro job s s' hr h
    cases job with
    | seq nodes =>
      cases nodes with
      | nil =>
        simp only [run] at hr
        rw [Res2.ok.injEq] at hr
        subst hr
        exact h
      | cons x xs =>
        simp only [run] at hr
        rw [andThen_ok2] at hr
        obtain ⟨s1, h1, h2⟩ := hr
        exact ih _ _ _ h2 (ih _ _ _ h1 h)
    | bld nm tree =>
      simp only [run] at hr
      rw [andThen_ok2] at hr
      obtain ⟨s3, h1, h2⟩ := hr
      have hinv3 : EFInv2 s3.cfg :=
        ih _ _ _ h1 (efinv2_congr (by simp) (by simp) (efinv2_fresh nm))
      exact ih _ _ _ h2 hinv3
    | remSeq bids =>
      cases bids with
      | nil =>
        simp only [run] at hr
        rw [Res2.ok.injEq] at hr
        subst hr
        exact h
      | cons b bs =>
        simp only [run] at hr
        rw [andThen_ok2] at hr
        obtain ⟨s1, h1, h2⟩ := hr
        exact ih _ _ _ h2 (ih _ _ _ h1 h)
    | rem bid =>
      simp only [run] at hr
      split at hr
      · rw [Res2.ok.injEq] at hr
        subst hr
        exact h
      · split at hr
        · exact absurd hr (by simp)
        · split at hr
          · rw [andThen_ok2] at hr
            obtain ⟨s1, h1, h2⟩ := hr
            have hinv1 : EFInv2 s1.cfg := efinv2_remPrev _ _ _ h1 h
            rw [andThen_ok2] at h2
            obtain ⟨s3, h3, h4⟩ := h2
            have hinv3 : EFInv2 s3.cfg := ih _ _ _ h3 (efinv2_congr (by simp) (by simp) hinv1)
            rw [Res2.ok.injEq] at h4
            subst h4
            exact efinv2_congr (by simp) (by simp) hinv3
          · exact ih _ _ _ hr h
    | vis node =>
      cases node
      case module body =>
        simp only [run] at hr
        rw [andThen_ok2] at hr
        obtain ⟨s1, h1, h2⟩ := hr
        exact ih _ _ _ h2 (efinv2_stmtAdvance h1 h)
      case functionDef fname argNames defaults body =>
        simp only [run] at hr
        rw [andThen_ok2] at hr
        obtain ⟨sN, h1, h2⟩ := hr
        rw [andThen_ok2] at h2
        obtain ⟨s4, h3, h4⟩ := h2
        have hinv4 : EFInv2 s4.cfg :=
          efinv2_addEdgeS h3
            (efinv2_congr (by simp [newFuncBlockP]) (by simp [newFuncBlockP]) h)
        rw [Res2.ok.injEq] at h4
        subst h4
        exact hinv4
      case exprS v =>
        simp only [run] at hr
        rw [andThen_ok2] at hr
        obtain ⟨s1, h1, h2⟩ := hr
        exact ih _ _ _ h2
          (efinv2_congr (by rw [visitExprBranch_ok_cfg h1])
            (by rw [visitExprBranch_ok_cfg h1]) h)
      case call fn args kw =>
        cases fn
        case lambdaE a b =>
          simp only [run] at hr
          exact absurd hr (by simp)
        all_goals
          simp only [run] at hr
          rw [andThen_ok2] at hr
          obtain ⟨s3, h1, h2⟩ := hr
          have hinv3 : EFInv2 s3.cfg :=
            efinv2_addEdgeS h1 (efinv2_congr (by simp [newCallBlockP]) (by simp [newCallBlockP]) h)
          rw [Res2.ok.injEq] at h2
          subst h2
          exact hinv3
      case assertS t m =>
        simp only [run] at hr
        rw [andThen_ok2] at hr
        obtain ⟨s3, h1, h2⟩ := hr
        have hinv3 : EFInv2 s3.cfg := efinv2_addEdgeS h1 (efinv2_congr (by simp) (by simp) h)
        exact ih _ _ _ h2 hinv3
      case name i =>
        simp only [run] at hr
        rw [Res2.ok.injEq] at hr
        subst hr
        exact h
      case num nv =>
        simp only [run] at hr
        rw [Res2.ok.injEq] at hr
        subst hr
        exact h
      all_goals
        simp only [run] at hr
        first
        | exact efinv2_stmtAdvance hr h
        | exact absurd hr (by simp)

end CfgPy

mutual

/-- Flatten nested `And` conjunctions (`BoolOp(op=And())` nodes as built
by `add_condition`) into the ordered list of their leaf conjuncts. This
is the normalisation under which the two empty-block elimination orders
are compared. -/
def flattenConj : PyAst → List PyAst
  | .boolOp true vals => flattenList vals
  | x => [x]

/-- Flattening of every member of a conjunct list, in order. -/
def flattenList : List PyAst → List PyAst
  | [] => []
  | x :: xs => flattenConj x ++ flattenList xs

end

/-- Conjunct list of an optional edge guard: a `None` guard has no
conjuncts. -/
def flattenOpt : Option PyAst → List PyAst
  | none => []
  | some x => flattenConj x

namespace FlowsPy

/-- Extract the state of a successful run; total with `initSt` as the
dummy default so that concrete run results can be named by plain
definitions. -/
def resSt (r : Res) : St :=
  match r with
  | .ok s => s
  | _ => initSt

/-- Whether a run succeeded. -/
def resOk (r : Res) : Bool :=
  match r with
  | .ok _ => true
  | _ => false

/-- Crafted chain `1 -g1-> 2 -g2-> 3 -g3-> 4` in which blocks 2 and 3
are empty and blocks 1 and 4 hold a `pass`: the configuration of the
associativity claim about empty-block elimination. -/
def c8base : St :=
  let s1 := (newBlockP initSt).2
  let s2 := (newBlockP s1).2
  let s3 := (newBlockP s2).2
  let s4 := (newBlockP s3).2
  let s5 := addStmtP 1 .passS s4
  let s6 := addStmtP 4 .passS s5
  resSt ((addEdgeS 1 2 (some (.name "g1")) s6).andThen fun t1 =>
        (addEdgeS 2 3 (some (.name "g2")) t1).andThen fun t2 =>
         addEdgeS 3 4 (some (.name "g3")) t2)

/-- Elimination visiting empty block 2 first (3 is then reached through
the recursive descent into successors, as `remove_empty_blocks` does). -/
def c8resA : St := resSt (run 12 (.remSeq [2, 3]) c8base)

/-- Elimination visiting empty block 3 first, then block 2. -/
def c8resB : St := resSt (run 12 (.remSeq [3, 2]) c8base)

end FlowsPy

namespace FlowsPy

@[simp] lemma newBlockP_fst (s : St) : (newBlockP s).1 = s.counter + 1 := rfl

@[simp] lemma newBlockP_curr (s : St) : ((newBlockP s).2).curr = s.curr := rfl

@[simp] lemma newBlockP_counter (s : St) : ((newBlockP s).2).counter = s.counter + 1 := rfl

@[simp] lemma newBlockP_cfg_finalBlocks (s : St) :
    ((newBlockP s).2).cfg.finalBlocks = s.cfg.finalBlocks := by
  unfold newBlockP
  simp

end FlowsPy

namespace CfgPy

@[simp] lemma newBlockP2_fst (s : St2) : (newBlockP2 s).1 = s.counter + 1 := rfl

@[simp] lemma newBlockP2_curr (s : St2) : ((newBlockP2 s).2).curr = s.curr := rfl

@[simp] lemma newBlockP2_counter (s : St2) :
    ((newBlockP2 s).2).counter = s.counter + 1 := rfl

@[simp] lemma modBlk2_curr (bid : Nat) (f : Blk → Blk) (s : St2) :
    (modBlk2 bid f s).curr = s.curr := by
  unfold modBlk2
  cases blkFind bid s.cfg.blocks <;> simp

@[simp] lemma modBlk2_counter (bid : Nat) (f : Blk → Blk) (s : St2) :
    (modBlk2 bid f s).counter = s.counter := by
  unfold modBlk2
  cases blkFind bid s.cfg.blocks <;> simp

@[simp] lemma addStmtP2_curr (bid : Nat) (st : PyAst) (s : St2) :
    (addStmtP2 bid st s).curr = s.curr := by
  unfold addStmtP2
  simp

@[simp] lemma addStmtP2_counter (bid : Nat) (st : PyAst) (s : St2) :
    (addStmtP2 bid st s).counter = s.counter := by
  unfold addStmtP2
  simp

end CfgPy

mutual

/-- Deep check for a `ListComp` node anywhere inside an AST, used to
state that the lowering leaves no comprehension in any block. -/
def containsListComp : PyAst → Bool
  | .module b => containsLCL b
  | .importS _ => false
  | .importFrom _ _ => false
  | .functionDef _ _ ds b => containsLCL ds || containsLCL b
  | .classDef _ b => containsLCL b
  | .assign ts v => containsLCL ts || containsListComp v
  | .augAssign t _ v => containsListComp t || containsListComp v
  | .ifS t b o => containsListComp t || containsLCL b || containsLCL o
  | .whileS t b o => containsListComp t || containsLCL b || containsLCL o
  | .forS t i b o =>
    containsListComp t || containsListComp i || containsLCL b || containsLCL o
  | .breakS => false
  | .continueS => false
  | .returnS v => containsLCO v
  | .passS => false
  | .assertS t m => containsListComp t || containsLCO m
  | .raiseS e => containsLCO e
  | .tryS b hs o f => containsLCL b || containsLCH hs || containsLCL o || containsLCL f
  | .exprS v => containsListComp v
  | .name _ => false
  | .num _ => false
  | .strE _ => false
  | .call f a k => containsListComp f || containsLCL a || containsLCL k
  | .attribute v _ => containsListComp v
  | .subscript v i => containsListComp v || containsListComp i
  | .boolOp _ vs => containsLCL vs
  | .binOp l _ r => containsListComp l || containsListComp r
  | .compare l _ r => containsListComp l || containsListComp r
  | .listE es => containsLCL es
  | .dictE ks vs => containsLCL ks || containsLCL vs
  | .yieldE v => containsLCO v
  | .listComp _ _ => true
  | .setComp e gs => containsListComp e || containsLCL gs
  | .dictComp k v gs => containsListComp k || containsListComp v || containsLCL gs
  | .genExp e gs => containsListComp e || containsLCL gs
  | .lambdaE _ b => containsListComp b
  | .ifExpE t b o => containsListComp t || containsListComp b || containsListComp o
  | .comprehension t i ifs => containsListComp t || containsListComp i || containsLCL ifs

/-- Deep check over a node list. -/
def containsLCL : List PyAst → Bool
  | [] => false
  | x :: xs => containsListComp x || containsLCL xs

/-- Deep check under an optional node. -/
def containsLCO : Option PyAst → Bool
  | none => false
  | some x => containsListComp x

/-- Deep check over a `try` handler list. -/
def containsLCH : List (Option PyAst × List PyAst) → Bool
  | [] => false
  | (ty, b) :: rest => containsLCO ty || containsLCL b || containsLCH rest

end

namespace FlowsPy

/-- Crafted diamond `1 -gc-> 3` and `1 -g1-> 2 -g2-> 3` in which block 2
is empty and blocks 1 and 3 hold a `pass`: eliminating block 2 makes
`remove_empty_blocks` write the pair `(1, 3)` a second time. -/
def c2state : St :=
  let s1 := (newBlockP initSt).2
  let s2 := (newBlockP s1).2
  let s3 := (newBlockP s2).2
  let s4 := addStmtP 1 .passS s3
  let s5 := addStmtP 3 .passS s4
  resSt ((addEdgeS 1 3 (some (.name "gc")) s5).andThen fun t1 =>
        (addEdgeS 1 2 (some (.name "g1")) t1).andThen fun t2 =>
         addEdgeS 2 3 (some (.name "g2")) t2)

/-- A state with two registered blocks, for exercising `add_edge` on its
own. -/
def c2wSt : St := (newBlockP (newBlockP initSt).2).2

/-- A state with one registered block and the cursor on it. -/
def c6st : St := { (newBlockP initSt).2 with curr := 1 }

/-- A state with one registered block, the cursor on it and that block
pushed as the innermost loop exit. -/
def c7wSt : St := { (newBlockP initSt).2 with curr := 1, loopStack := [1] }

end FlowsPy

/-- Module `while a: break ; pass` (the `pass` follows the `break` inside
the loop body). -/
def c7mod : PyAst := .module [.whileS (.name "a") [.breakS, .passS] []]

/-- Module `lambda x: x` as a bare expression statement, the input on
which `flows.py` reaches `visit_Lambda`. -/
def c4mod : PyAst := .module [.exprS (.lambdaE ["x"] (.name "x"))]

/-- Module `y = [x*x for x in xs if x > 0]`. -/
def c9mod : PyAst :=
  .module [.assign [.name "y"]
    (.listComp (.binOp (.name "x") "*" (.name "x"))
      [.comprehension (.name "x") (.name "xs") [.compare (.name "x") ">" (.num 0)]])]

/-- Module `import os` then `def f(): pass`, the input on which `cfg.py`
loses a predecessor list. -/
def c3tree : PyAst := .module [.importS "os", .functionDef "f" [] [] [.passS]]

/-- Module consisting of the bare call statement `f()`. -/
def c10tree : PyAst := .module [.exprS (.call (.name "f") [] [])]


namespace CfgPy

/-- A `cfg.py` state with one registered block and the cursor on it. -/
def c6st2 : St2 := { (newBlockP2 initSt2).2 with curr := 1 }

lemma run_seq_name_ok {i : String} : ∀ (fuel : Nat) (s s' : St2),
    run fuel (.seq [.name i]) s = .ok s' → s' = s := by
  intro fuel
  cases fuel with
  | zero =>
    intro s s' hr
    simp [run] at hr
  | succ n =>
    cases n with
    | zero =>
      intro s s' hr
      simp [run, Res2.andThen] at hr
    | succ m =>
      intro s s' hr
      simp only [run, Res2.andThen] at hr
      rw [Res2.ok.injEq] at hr
      exact hr.symm

end CfgPy

/-- The block map of the CFG built for `y = [x*x for x in xs if x > 0]`
(the fully evaluated result of the build, stated literally). -/
def c9blocks : List (Nat × Blk) :=
  [(1, Blk.mk 1 [.assign [.name "_var1"] (.listE [])] [] [] [2]),
   (2, Blk.mk 2 [.forS (.name "x") (.name "xs")
        [.ifS (.compare (.name "x") ">" (.num 0))
          [.exprS (.call (.attribute (.name "_var1") "append")
            [.binOp (.name "x") "*" (.name "x")] [])] []] []] [] [1, 3, 6] [3, 4]),
   (3, Blk.mk 3 [.ifS (.compare (.name "x") ">" (.num 0))
          [.exprS (.call (.attribute (.name "_var1") "append")
            [.binOp (.name "x") "*" (.name "x")] [])] []] [] [2] [6, 2]),
   (4, Blk.mk 4 [.assign [.name "y"] (.name "_var1")] [] [2] []),
   (5, Blk.mk 5 [] [] [] []),
   (6, Blk.mk 6 [.call (.attribute (.name "_var1") "append")
        [.binOp (.name "x") "*" (.name "x")] []] [] [3] [2]),
   (7, Blk.mk 7 [] [] [] []),
   (8, Blk.mk 8 [] [] [] [])]

/-- C1: for every successful build of either implementation, the `flows`
set and the key set of the edge map hold exactly the same pairs
(invariant I4), with empty-block elimination included in the build. -/
theorem c1_flows_match_edge_keys :
    (∀ (fuel : Nat) (nm : String) (tree : PyAst) (s : St),
      FlowsPy.build fuel nm tree = .ok s →
      ∀ p : Nat × Nat, p ∈ s.cfg.flows ↔ p ∈ keysOf s.cfg) ∧
    (∀ (fuel : Nat) (nm : String) (tree : PyAst) (s : CfgPy.St2),
      CfgPy.build fuel nm tree = .ok s →
      ∀ p : Nat × Nat, p ∈ s.cfg.flows ↔ p ∈ CfgPy.keysOf2 s.cfg) := by
  constructor
  · intro fuel nm tree s hr p
    simp only [FlowsPy.build] at hr
    exact (FlowsPy.efinv_run fuel _ _ _ hr (efinv_fresh "")).1 p
  · intro fuel nm tree s hr p
    simp only [CfgPy.build] at hr
    exact (CfgPy.efinv2_run fuel _ _ _ hr (CfgPy.efinv2_fresh "")).1 p

theorem c1_flows_match_edge_keys_witness :
    ((1, 2) ∈ (FlowsPy.resSt (FlowsPy.build 10 "m" (.module [.passS]))).cfg.flows ↔
      (1, 2) ∈ keysOf (FlowsPy.resSt (FlowsPy.build 10 "m" (.module [.passS]))).cfg) ∧
    ((1, 2) ∈ (CfgPy.resSt2 (CfgPy.build 10 "m" (.module [.passS]))).cfg.flows ↔
      (1, 2) ∈ CfgPy.keysOf2 (CfgPy.resSt2 (CfgPy.build 10 "m" (.module [.passS]))).cfg) :=
  ⟨c1_flows_match_edge_keys.1 10 "m" (.module [.passS]) _ rfl (1, 2),
   c1_flows_match_edge_keys.2 10 "m" (.module [.passS]) _ rfl (1, 2)⟩

/-- C2 counterexample: in the crafted diamond `c2state` the pair `(1, 3)`
already carries the guard `gc`; eliminating the empty block 2 writes the
pair again with the merged guard `g1 and g2`, and it is the SECOND write
that survives — the construction is not left-biased. -/
theorem c2_edge_overwrite_counterexample :
    edgeGet (1, 3) FlowsPy.c2state.cfg.edges = some (.name "gc") ∧
    FlowsPy.resOk (FlowsPy.run 10 (.rem 2) FlowsPy.c2state) = true ∧
    edgeGet (1, 3) (FlowsPy.resSt (FlowsPy.run 10 (.rem 2) FlowsPy.c2state)).cfg.edges =
      some (.boolOp true [.name "g1", .name "g2"]) ∧
    (some (.boolOp true [.name "g1", .name "g2"]) : Option PyAst) ≠ some (.name "gc") := by
  refine ⟨rfl, rfl, rfl, ?_⟩
  intro h
  rw [Option.some.injEq] at h
  exact PyAst.noConfusion h

/-- C2 amended: the at-most-one-edge half of the claim holds (the key
set of the edge map of every successfully built CFG has no duplicates,
in both implementations), but ties are resolved the other way round:
`add_edge` is a dict assignment, so the guard that survives a repeated
write is the LAST one written. -/
theorem c2_amended_unique_edges_last_write :
    (∀ (fuel : Nat) (nm : String) (tree : PyAst) (s : St),
      FlowsPy.build fuel nm tree = .ok s → (keysOf s.cfg).Nodup) ∧
    (∀ (fuel : Nat) (nm : String) (tree : PyAst) (s : CfgPy.St2),
      CfgPy.build fuel nm tree = .ok s → (CfgPy.keysOf2 s.cfg).Nodup) ∧
    (∀ (frm toId : Nat) (cond : Option PyAst) (s s' : St),
      FlowsPy.addEdgeS frm toId cond s = .ok s' →
      alistFind (frm, toId) s'.cfg.edges = some cond) := by
  refine ⟨?_, ?_, ?_⟩
  · intro fuel nm tree s hr
    simp only [FlowsPy.build] at hr
    exact (FlowsPy.efinv_run fuel _ _ _ hr (efinv_fresh "")).2.1
  · intro fuel nm tree s hr
    simp only [CfgPy.build] at hr
    exact (CfgPy.efinv2_run fuel _ _ _ hr (CfgPy.efinv2_fresh "")).2.1
  · intro frm toId cond s s' hr
    rw [(FlowsPy.addEdgeS_spec hr).2.2.2]
    exact alistFind_insert _ _ _

theorem c2_amended_unique_edges_last_write_witness :
    (keysOf (FlowsPy.resSt (FlowsPy.build 10 "m" (.module [.passS, .passS]))).cfg).Nodup ∧
    alistFind (1, 2)
      (FlowsPy.resSt (FlowsPy.addEdgeS 1 2 (some (.name "g")) FlowsPy.c2wSt)).cfg.edges =
      some (some (.name "g")) :=
  ⟨c2_amended_unique_edges_last_write.1 10 "m" (.module [.passS, .passS]) _ rfl,
   c2_amended_unique_edges_last_write.2.2 1 2 (some (.name "g")) FlowsPy.c2wSt _ rfl⟩

/-- C3: evaluating `cfg.py`'s build on `import os ; def f(): pass` shows
invariant I2 broken: the edge `(2, 3)` is in the edge map and `3` is in
block 2's successor list, but block 3's predecessor list is empty,
because `new_func_block` replaced the block object. -/
theorem c3_replaced_block_loses_prev :
    CfgPy.resOk2 (CfgPy.build 40 "m" c3tree) = true ∧
    alistFind (2, 3) (CfgPy.resSt2 (CfgPy.build 40 "m" c3tree)).cfg.edges = some none ∧
    (blkFind 2 (CfgPy.resSt2 (CfgPy.build 40 "m" c3tree)).cfg.blocks).map Blk.nxt =
      some [3] ∧
    (blkFind 3 (CfgPy.resSt2 (CfgPy.build 40 "m" c3tree)).cfg.blocks).map Blk.prev =
      some [] :=
  ⟨rfl, rfl, rfl, rfl⟩

/-- C4: the well-formed module `lambda x: x` (a bare expression
statement) makes `flows.py` reach `visit_Lambda`, whose call
`self.add_FuncCFG()` misses the required positional argument and raises
`TypeError` — so the builder does raise on a well-formed AST, at every
sufficient fuel. -/
theorem c4_lambda_raises :
    ∀ fuel : Nat, FlowsPy.build (fuel + 6) "m" c4mod = .err .lambdaArg :=
  fun _ => rfl

/-- C5: a `break` visited with an empty loop-exit stack, or a `continue`
visited with an empty loop-guard stack, fails fast with the respective
assertion error — at the visitor level from every state, and through a
whole `build` on `break` / `continue` at module top level. -/
theorem c5_break_continue_fail_fast :
    (∀ (fuel : Nat) (s : St), s.loopStack = [] →
      FlowsPy.run (fuel + 1) (.vis .breakS) s = .err .assertBreak) ∧
    (∀ (fuel : Nat) (s : St), s.loopGuardStack = [] →
      FlowsPy.run (fuel + 1) (.vis .continueS) s = .err .assertContinue) ∧
    (∀ fuel : Nat, FlowsPy.build (fuel + 4) "m" (.module [.breakS]) = .err .assertBreak) ∧
    (∀ fuel : Nat,
      FlowsPy.build (fuel + 4) "m" (.module [.continueS]) = .err .assertContinue) := by
  refine ⟨?_, ?_, fun _ => rfl, fun _ => rfl⟩
  · intro fuel s h
    simp only [FlowsPy.run, h]
  · intro fuel s h
    simp only [FlowsPy.run, FlowsPy.addStmtP_loopGuardStack, h]

theorem c5_break_continue_fail_fast_witness :
    FlowsPy.run 1 (.vis .breakS) FlowsPy.initSt = .err .assertBreak ∧
    FlowsPy.run 1 (.vis .continueS) FlowsPy.initSt = .err .assertContinue :=
  ⟨c5_break_continue_fail_fast.1 0 FlowsPy.initSt rfl,
   c5_break_continue_fail_fast.2.1 0 FlowsPy.initSt rfl⟩

/-- C6 counterexample: visiting `assert t` in `flows.py` records the
final block and advances the cursor, but the edge to the fresh successor
is added WITHOUT a condition — its guard is `None`, not the test `t`. -/
theorem c6_assert_guard_counterexample :
    FlowsPy.resOk (FlowsPy.run 1 (.vis (.assertS (.name "t") none)) FlowsPy.c6st) = true ∧
    (FlowsPy.resSt (FlowsPy.run 1 (.vis (.assertS (.name "t") none))
      FlowsPy.c6st)).cfg.finalBlocks = [1] ∧
    alistFind (1, 2) (FlowsPy.resSt (FlowsPy.run 1 (.vis (.assertS (.name "t") none))
      FlowsPy.c6st)).cfg.edges = some none ∧
    (some (none : Option PyAst) : Option (Option PyAst)) ≠ some (some (.name "t")) := by
  refine ⟨rfl, rfl, rfl, ?_⟩
  intro h
  rw [Option.some.injEq] at h
  exact Option.noConfusion h

/-- C6 amended: after a successful `assert` visit, `flows.py` appends
the current block to `final_blocks` and links it to the fresh successor
with an UNCONDITIONAL edge, advancing the cursor there; `cfg.py` puts
the test on that edge as its guard but records no final block (its CFG
class has no final-blocks list at all). -/
theorem c6_assert_amended :
    (∀ (fuel : Nat) (t : PyAst) (m : Option PyAst) (s s' : St),
      FlowsPy.run (fuel + 1) (.vis (.assertS t m)) s = .ok s' →
      s'.cfg.finalBlocks = s.cfg.finalBlocks ++ [s.curr] ∧
      alistFind (s.curr, s.counter + 1) s'.cfg.edges = some none ∧
      s'.curr = s.counter + 1) ∧
    (∀ (fuel : Nat) (i : String) (s s' : CfgPy.St2),
      CfgPy.run (fuel + 1) (.vis (.assertS (.name i) none)) s = .ok s' →
      alistFind (s.curr, s.counter + 1) s'.cfg.edges = some (some (.name i)) ∧
      s'.curr = s.counter + 1) := by
  constructor
  · intro fuel t m s s' hr
    simp only [FlowsPy.run] at hr
    rw [FlowsPy.andThen_ok] at hr
    obtain ⟨s4, h1, h2⟩ := hr
    rw [Res.ok.injEq] at h2
    subst h2
    obtain ⟨hc, hk, hf, he⟩ := FlowsPy.addEdgeS_spec h1
    refine ⟨?_, ?_, ?_⟩
    · simp only [hf, FlowsPy.newBlockP_cfg_finalBlocks, setFinalBlocks_finalBlocks,
        FlowsPy.addStmtP_cfg_finalBlocks, FlowsPy.addStmtP_curr]
    · simp only [he, FlowsPy.newBlockP_curr, FlowsPy.newBlockP_fst,
        FlowsPy.addStmtP_curr, FlowsPy.addStmtP_counter, alistFind_insert]
    · simp only [FlowsPy.newBlockP_fst, FlowsPy.addStmtP_counter]
  · intro fuel i s s' hr
    simp only [CfgPy.run] at hr
    rw [CfgPy.andThen_ok2] at hr
    obtain ⟨s3, h1, h2⟩ := hr
    simp only [Option.toList_none, List.append_nil] at h2
    have hs' := CfgPy.run_seq_name_ok fuel _ _ h2
    subst hs'
    obtain ⟨hc, hk, he⟩ := CfgPy.addEdgeS2_spec h1
    constructor
    · simp only [he, CfgPy.newBlockP2_curr, CfgPy.newBlockP2_fst,
        CfgPy.addStmtP2_curr, CfgPy.addStmtP2_counter, alistFind_insert]
    · simp only [CfgPy.newBlockP2_fst, CfgPy.addStmtP2_counter]

theorem c6_assert_amended_witness :
    ((FlowsPy.resSt (FlowsPy.run 1 (.vis (.assertS (.name "t") none))
        FlowsPy.c6st)).cfg.finalBlocks =
      FlowsPy.c6st.cfg.finalBlocks ++ [FlowsPy.c6st.curr] ∧
     alistFind (FlowsPy.c6st.curr, FlowsPy.c6st.counter + 1)
        (FlowsPy.resSt (FlowsPy.run 1 (.vis (.assertS (.name "t") none))
          FlowsPy.c6st)).cfg.edges = some none ∧
     (FlowsPy.resSt (FlowsPy.run 1 (.vis (.assertS (.name "t") none))
        FlowsPy.c6st)).curr = FlowsPy.c6st.counter + 1) ∧
    (alistFind (CfgPy.c6st2.curr, CfgPy.c6st2.counter + 1)
        (CfgPy.resSt2 (CfgPy.run 3 (.vis (.assertS (.name "t") none))
          CfgPy.c6st2)).cfg.edges = some (some (.name "t")) ∧
     (CfgPy.resSt2 (CfgPy.run 3 (.vis (.assertS (.name "t") none))
        CfgPy.c6st2)).curr = CfgPy.c6st2.counter + 1) :=
  ⟨c6_assert_amended.1 0 (.name "t") none FlowsPy.c6st _ rfl,
   c6_assert_amended.2 2 "t" CfgPy.c6st2 _ rfl⟩

/-- C7 counterexample: in the build of `while a: break ; pass` the
`pass` that follows the `break` lands in the very block that holds the
`break` — `flows.py`'s `visit_Break` does not advance the cursor, so
following statements are appended to the break block. -/
theorem c7_break_cursor_counterexample :
    FlowsPy.resOk (FlowsPy.build 20 "m" c7mod) = true ∧
    (blkFind 3 (FlowsPy.resSt (FlowsPy.build 20 "m" c7mod)).cfg.blocks).map Blk.stmts =
      some [.breakS, .passS] :=
  ⟨rfl, rfl⟩

/-- C7 amended: a successful `break` visit appends the node to the
current block and adds the unconditional edge to the innermost loop
exit, but the cursor stays on the same block. -/
theorem c7_break_amended :
    ∀ (fuel : Nat) (s s' : St) (b : Nat) (rest : List Nat),
      s.loopStack = b :: rest →
      FlowsPy.run (fuel + 1) (.vis .breakS) s = .ok s' →
      s'.curr = s.curr ∧
      alistFind (s.curr, b) s'.cfg.edges = some none ∧
      (blkFind s.curr s'.cfg.blocks).map Blk.stmts =
        (blkFind s.curr s.cfg.blocks).map (fun bl => bl.stmts ++ [.breakS]) := by
  intro fuel s s' b rest hst hr
  simp only [FlowsPy.run, hst] at hr
  obtain ⟨hc, hk, hf, he⟩ := FlowsPy.addEdgeS_spec hr
  have hstm := FlowsPy.addEdgeS_stmts hr s.curr
  refine ⟨?_, ?_, ?_⟩
  · rw [hc]
    simp
  · rw [he]
    simp [alistFind_insert]
  · rw [hstm, FlowsPy.addStmtP_blkFind_self]
    cases blkFind s.curr s.cfg.blocks <;> simp

theorem c7_break_amended_witness :
    (FlowsPy.resSt (FlowsPy.run 1 (.vis .breakS) FlowsPy.c7wSt)).curr =
      FlowsPy.c7wSt.curr ∧
    alistFind (FlowsPy.c7wSt.curr, 1)
      (FlowsPy.resSt (FlowsPy.run 1 (.vis .breakS) FlowsPy.c7wSt)).cfg.edges =
      some none ∧
    (blkFind FlowsPy.c7wSt.curr
      (FlowsPy.resSt (FlowsPy.run 1 (.vis .breakS) FlowsPy.c7wSt)).cfg.blocks).map
        Blk.stmts =
      (blkFind FlowsPy.c7wSt.curr FlowsPy.c7wSt.cfg.blocks).map
        (fun bl => bl.stmts ++ [.breakS]) :=
  c7_break_amended 0 FlowsPy.c7wSt _ 1 [] rfl rfl

/-- C8 counterexample: on the chain `1 -g1-> 2 -g2-> 3 -g3-> 4` with
empty blocks 2 and 3, the two elimination orders both succeed but leave
syntactically different guards on the edge `(1, 4)` — the conjunctions
are nested left vs right, so the merged guard is not literally the same
AST. -/
theorem c8_order_counterexample :
    FlowsPy.resOk (FlowsPy.run 12 (.remSeq [2, 3]) FlowsPy.c8base) = true ∧
    FlowsPy.resOk (FlowsPy.run 12 (.remSeq [3, 2]) FlowsPy.c8base) = true ∧
    edgeGet (1, 4) FlowsPy.c8resA.cfg.edges =
      some (.boolOp true [.boolOp true [.name "g1", .name "g2"], .name "g3"]) ∧
    edgeGet (1, 4) FlowsPy.c8resB.cfg.edges =
      some (.boolOp true [.name "g1", .boolOp true [.name "g2", .name "g3"]]) ∧
    edgeGet (1, 4) FlowsPy.c8resA.cfg.edges ≠ edgeGet (1, 4) FlowsPy.c8resB.cfg.edges := by
  refine ⟨rfl, rfl, rfl, rfl, ?_⟩
  intro h
  have h2 : (some (.boolOp true [.boolOp true [.name "g1", .name "g2"], .name "g3"]) :
      Option PyAst) =
      some (.boolOp true [.name "g1", .boolOp true [.name "g2", .name "g3"]]) := h
  rw [Option.some.injEq, PyAst.boolOp.injEq] at h2
  rw [List.cons.injEq] at h2
  exact PyAst.noConfusion h2.2.1

/-- C8 amended: the guard merge is associative up to flattening of the
`And` nesting — `add_condition` applied in either association order
yields guards with the same flattened conjunct list, and on the concrete
chain the two elimination orders produce guards with equal flattened
conjunct lists. -/
theorem c8_flatten_amended :
    (∀ c1 c2 c3 : Option PyAst,
      flattenOpt (FlowsPy.addCondition (FlowsPy.addCondition c1 c2) c3) =
        flattenOpt (FlowsPy.addCondition c1 (FlowsPy.addCondition c2 c3))) ∧
    flattenOpt (edgeGet (1, 4) FlowsPy.c8resA.cfg.edges) =
      flattenOpt (edgeGet (1, 4) FlowsPy.c8resB.cfg.edges) := by
  constructor
  · intro c1 c2 c3
    cases c1 <;> cases c2 <;> cases c3 <;>
      simp [FlowsPy.addCondition, flattenOpt, flattenConj, flattenList, List.append_assoc]
  · have ha : edgeGet (1, 4) FlowsPy.c8resA.cfg.edges =
        some (.boolOp true [.boolOp true [.name "g1", .name "g2"], .name "g3"]) := rfl
    have hb : edgeGet (1, 4) FlowsPy.c8resB.cfg.edges =
        some (.boolOp true [.name "g1", .boolOp true [.name "g2", .name "g3"]]) := rfl
    rw [ha, hb]
    simp [flattenOpt, flattenConj, flattenList]

/-- C9: the build of `y = [x*x for x in xs if x > 0]` succeeds and its
block map is literally `c9blocks`: block 1 assigns the empty list to the
fresh temporary `_var1`, the for-lowering iterates `x` over `xs`, the
`append` of `x*x` to `_var1` sits in block 6 under the `if x > 0` block
3, block 4 assigns `y = _var1`, and no `ListComp` node occurs anywhere
in any block's statements. -/
theorem c9_listcomp_lowering :
    FlowsPy.resOk (FlowsPy.build 40 "m" c9mod) = true ∧
    (FlowsPy.resSt (FlowsPy.build 40 "m" c9mod)).cfg.blocks = c9blocks ∧
    (FlowsPy.resSt (FlowsPy.build 40 "m" c9mod)).cfg.edges =
      [((6, 2), none), ((3, 2), none), ((3, 6), none), ((2, 4), none),
       ((2, 3), none), ((1, 2), none)] ∧
    (c9blocks.all fun pb => !(containsLCL pb.2.stmts)) = true := by
  refine ⟨rfl, rfl, rfl, ?_⟩
  simp [c9blocks, containsLCL, containsListComp, containsLCO]

/-- C10 counterexample: for the expression statement `f()` — whose value
is a `Call`, not a list comprehension over a call and not a lambda —
`cfg.py` does append a statement: the generic descent reaches
`visit_Call`, which appends the call to the (replaced) current block. -/
theorem c10_expr_counterexample :
    CfgPy.resOk2 (CfgPy.build 40 "m" c10tree) = true ∧
    (blkFind 2 (CfgPy.resSt2 (CfgPy.build 40 "m" c10tree)).cfg.blocks).map Blk.stmts =
      some [.call (.name "f") [] []] :=
  ⟨rfl, rfl⟩

/-- C10 amended: the always-truthy branch condition makes the final
`else` of `visit_Expr` dead code, so for a bare name or constant
expression statement the visit is a complete no-op on the state; but
for `Call` values the generic descent still appends a statement, so the
claim's universal form is restricted to names and constants. -/
theorem c10_expr_amended :
    (∀ (fuel : Nat) (s : CfgPy.St2) (i : String),
      CfgPy.run (fuel + 3) (.vis (.exprS (.name i))) s = .ok s) ∧
    (∀ (fuel : Nat) (s : CfgPy.St2) (n : Int),
      CfgPy.run (fuel + 3) (.vis (.exprS (.num n))) s = .ok s) :=
  ⟨fun _ _ _ => rfl, fun _ _ _ => rfl⟩
